import Mathlib

/-!
Shallow embedding of the Signals library (`Signals.h`): a `Signal` holds the
head of an intrusive singly linked list of `Connection` objects, each of which
owns one delegate, carries a back-reference to its `Signal`, a link to the next
`Connection`, and a blocked flag.  Pointers are modelled as `Option Nat`
identifiers into heaps `Nat → SigSt` and `Nat → ConnSt`; the `while` loops of
the source become fuel-indexed recursions; delegate bodies are an explicit
parameter `δ : Nat → State A → State A` (the state transformation performed by
the user callback of the connection with the given identifier), and every
delegate invocation is recorded in a ghost trace.
-/

/-- Event recorded when a connection's delegate is invoked: which connection
was invoked, the argument value it received, and whether the dispatch loop
passed the argument through the destructive forward branch (the last use). -/
structure Ev (A : Type) where
  conn : Nat
  arg : A
  moved : Bool
deriving DecidableEq

/-- State of one `Connection` object: `signal_` (back-reference to its Signal),
`next_` (link to the next Connection in the list) and `blocked_`. -/
structure ConnSt where
  signal : Option Nat
  next : Option Nat
  blocked : Bool
deriving DecidableEq

/-- State of one `Signal` object: `connections_` (head of its intrusive list)
and `blocked_`. -/
structure SigSt where
  connections : Option Nat
  blocked : Bool
deriving DecidableEq

/-- Global program state: heaps of Signal and Connection objects addressed by
numeric identifiers, ghost liveness flags for the Connection objects and for
their owned delegates, and a ghost trace of delegate invocations.  Each
Connection owns exactly one delegate, so delegates are indexed by their
connection's identifier. -/
structure State (A : Type) where
  sigs : Nat → SigSt
  conns : Nat → ConnSt
  connLive : Nat → Bool
  delegateLive : Nat → Bool
  trace : List (Ev A)

/-- Write one Connection heap cell. -/
def setConn {A : Type} (s : State A) (c : Nat) (v : ConnSt) : State A :=
  { s with conns := fun i => if i = c then v else s.conns i }

/-- Write one Signal heap cell. -/
def setSig {A : Type} (s : State A) (j : Nat) (v : SigSt) : State A :=
  { s with sigs := fun i => if i = j then v else s.sigs i }

@[simp]
theorem setConn_conns {A : Type} (s : State A) (c : Nat) (v : ConnSt) (i : Nat) :
    (setConn s c v).conns i = if i = c then v else s.conns i := rfl

@[simp]
theorem setConn_sigs {A : Type} (s : State A) (c : Nat) (v : ConnSt) :
    (setConn s c v).sigs = s.sigs := rfl

@[simp]
theorem setConn_trace {A : Type} (s : State A) (c : Nat) (v : ConnSt) :
    (setConn s c v).trace = s.trace := rfl

@[simp]
theorem setConn_connLive {A : Type} (s : State A) (c : Nat) (v : ConnSt) :
    (setConn s c v).connLive = s.connLive := rfl

@[simp]
theorem setConn_delegateLive {A : Type} (s : State A) (c : Nat) (v : ConnSt) :
    (setConn s c v).delegateLive = s.delegateLive := rfl

@[simp]
theorem setSig_sigs {A : Type} (s : State A) (j : Nat) (v : SigSt) (i : Nat) :
    (setSig s j v).sigs i = if i = j then v else s.sigs i := rfl

@[simp]
theorem setSig_conns {A : Type} (s : State A) (j : Nat) (v : SigSt) :
    (setSig s j v).conns = s.conns := rfl

@[simp]
theorem setSig_trace {A : Type} (s : State A) (j : Nat) (v : SigSt) :
    (setSig s j v).trace = s.trace := rfl

@[simp]
theorem setSig_connLive {A : Type} (s : State A) (j : Nat) (v : SigSt) :
    (setSig s j v).connLive = s.connLive := rfl

@[simp]
theorem setSig_delegateLive {A : Type} (s : State A) (j : Nat) (v : SigSt) :
    (setSig s j v).delegateLive = s.delegateLive := rfl

/-- Signal constructor: `connections_(nullptr), blocked_(false)`. -/
def Signal.init {A : Type} (sid : Nat) (s : State A) : State A :=
  setSig s sid { connections := none, blocked := false }

/-- Signal copy constructor: `connections_(nullptr), blocked_(other.blocked())`.
`src` is `other`, `dst` is the Signal being constructed. -/
def Signal.copyCtor {A : Type} (src dst : Nat) (s : State A) : State A :=
  setSig s dst { connections := none, blocked := (s.sigs src).blocked }

/-- Member `Signal::connect(connection_p p)`, in source order:
`p->next_ = connections_; connections_ = p; p->signal_ = this;`. -/
def Signal.connect {A : Type} (sid p : Nat) (s : State A) : State A :=
  let s1 := setConn s p { s.conns p with next := (s.sigs sid).connections }
  let s2 := setSig s1 sid { s1.sigs sid with connections := some p }
  setConn s2 p { s2.conns p with signal := some sid }

/-- The scan loop of `Signal::disconnect`:
`while (c != nullptr) { if (c->next() == conn) { c->next_ = conn->next();
conn->next_ = nullptr; conn->signal_ = nullptr; return; } c = c->next(); }`.
Fuel bounds the number of iterations; every claim supplies enough fuel for the
list being scanned. -/
def discLoop {A : Type} (conn : Nat) : Nat → Option Nat → State A → State A
  | _, none, s => s
  | 0, some _, s => s
  | fuel + 1, some c, s =>
    if (s.conns c).next = some conn then
      let s1 := setConn s c { s.conns c with next := (s.conns conn).next }
      let s2 := setConn s1 conn { s1.conns conn with next := none }
      setConn s2 conn { s2.conns conn with signal := none }
    else
      discLoop conn fuel ((s.conns c).next) s

/-- Member `Signal::disconnect(connection_p conn)`: head check first
(`connections_ = connections_->next(); conn->next_ = nullptr;
conn->signal_ = nullptr;`), otherwise the linear scan `discLoop`. -/
def Signal.disconnect {A : Type} (sid conn : Nat) (fuel : Nat) (s : State A) : State A :=
  let c := (s.sigs sid).connections
  if c = some conn then
    let s1 := setSig s sid { s.sigs sid with connections := (s.conns conn).next }
    let s2 := setConn s1 conn { s1.conns conn with next := none }
    setConn s2 conn { s2.conns conn with signal := none }
  else
    discLoop conn fuel c s

/-- Member `Signal::block()`. -/
def Signal.block {A : Type} (sid : Nat) (s : State A) : State A :=
  setSig s sid { s.sigs sid with blocked := true }

/-- Member `Signal::unblock()`. -/
def Signal.unblock {A : Type} (sid : Nat) (s : State A) : State A :=
  setSig s sid { s.sigs sid with blocked := false }

/-- Member `Connection::block()`. -/
def Connection.block {A : Type} (c : Nat) (s : State A) : State A :=
  setConn s c { s.conns c with blocked := true }

/-- Member `Connection::unblock()`. -/
def Connection.unblock {A : Type} (c : Nat) (s : State A) : State A :=
  setConn s c { s.conns c with blocked := false }

/-- Member `Connection::connected()`: `signal_ != nullptr`. -/
def Connection.connected {A : Type} (c : Nat) (s : State A) : Bool :=
  (s.conns c).signal.isSome

/-- Member `Connection::operator()(args... a)`: if not blocked, invoke the
owned delegate.  The invocation is recorded in the ghost trace and the
delegate body's effect on the state is `δ c`. -/
def Connection.call {A : Type} (δ : Nat → State A → State A) (c : Nat) (a : A)
    (moved : Bool) (s : State A) : State A :=
  if (s.conns c).blocked then s
  else δ c { s with trace := s.trace ++ [⟨c, a, moved⟩] }

/-- The dispatch loop of `Signal::operator()`:
`auto c = connections_; while (c) { auto c_next = c->next();
if (c_next) (*c)(a...); else (*c)(std::forward<args>(a)...); c = c_next; }`.
The captured `c_next` decides both the continuation and the forward (move)
branch. -/
def emitLoop {A : Type} (δ : Nat → State A → State A) (a : A) :
    Nat → Option Nat → State A → State A
  | _, none, s => s
  | 0, some _, s => s
  | fuel + 1, some c, s =>
    let cNext := (s.conns c).next
    emitLoop δ a fuel cNext (Connection.call δ c a cNext.isNone s)

/-- Member `Signal::operator()(args... a)`: only notify connections if this
signal is not blocked. -/
def Signal.emit {A : Type} (δ : Nat → State A → State A) (sid : Nat) (a : A)
    (fuel : Nat) (s : State A) : State A :=
  if (s.sigs sid).blocked then s
  else emitLoop δ a fuel ((s.sigs sid).connections) s

/-- The loop of `Signal::~Signal()`:
`connection_p p = connections_; while (p != nullptr) { connection_p n =
p->next(); disconnect(p); p = n; }`. -/
def destructLoop {A : Type} (sid : Nat) : Nat → Option Nat → State A → State A
  | _, none, s => s
  | 0, some _, s => s
  | fuel + 1, some p, s =>
    let n := (s.conns p).next
    destructLoop sid fuel n (Signal.disconnect sid p fuel s)

/-- Destructor `Signal::~Signal()`: disconnects every remaining Connection,
starting from the head, without touching the Connection objects' liveness. -/
def Signal.destruct {A : Type} (sid : Nat) (fuel : Nat) (s : State A) : State A :=
  destructLoop sid fuel ((s.sigs sid).connections) s

/-- Connection constructor (both overloads): allocate the delegate, initialise
`signal_(nullptr), next_(nullptr), blocked_(false)`, then `signal.connect(this)`. -/
def Connection.create {A : Type} (sid c : Nat) (s : State A) : State A :=
  let s1 : State A :=
    { s with
      conns := fun i => if i = c then ⟨none, none, false⟩ else s.conns i
      connLive := fun i => if i = c then true else s.connLive i
      delegateLive := fun i => if i = c then true else s.delegateLive i }
  Signal.connect sid c s1

/-- Destructor `Connection::~Connection()`: if `signal_ != nullptr`, call
`signal_->disconnect(this)`; then `delete delegate_` (and the Connection
object itself ceases to exist). -/
def Connection.destruct {A : Type} (c : Nat) (fuel : Nat) (s : State A) : State A :=
  let s1 := match (s.conns c).signal with
    | some sid => Signal.disconnect sid c fuel s
    | none => s
  { s1 with
    delegateLive := fun i => if i = c then false else s1.delegateLive i
    connLive := fun i => if i = c then false else s1.connLive i }

/-- Delegate semantics of an observer that inspects its arguments but performs
no operation on any Signal or Connection. -/
def pureDelegate {A : Type} : Nat → State A → State A := fun _ s => s

/-- Registering a batch of fresh Connections one after the other, each through
the Connection constructor. -/
def connectAll {A : Type} (sid : Nat) (cs : List Nat) (s : State A) : State A :=
  cs.foldl (fun st c => Connection.create sid c st) s

/-- The chain predicate: starting from pointer `p` and following the `next_`
links, one visits exactly the connections in `l` and then reaches `nullptr`. -/
def isChain {A : Type} (s : State A) : Option Nat → List Nat → Bool
  | p, [] => p.isNone
  | p, x :: l => p == some x && isChain s ((s.conns x).next) l

/-- The events a dispatch pass appends for the (sub)list `l` of connections,
given each connection's blocked flag: blocked entries are skipped and the
structurally last entry of the walk is the one invoked through the forward
(move) branch. -/
def walkEvents {A : Type} (bf : Nat → Bool) (a : A) : List Nat → List (Ev A)
  | [] => []
  | c :: l => (if bf c then [] else [⟨c, a, l.isEmpty⟩]) ++ walkEvents bf a l

/-- Chain segment: starting from pointer `p` and following the `next_` links,
one visits exactly the connections in `l` and ends up at pointer `q`. -/
def isChainSeg {A : Type} (s : State A) : Option Nat → List Nat → Option Nat → Bool
  | p, [], q => p == q
  | p, x :: l, q => p == some x && isChainSeg s ((s.conns x).next) l q

/-- Events appended for a strict prefix of the walk (every listed connection
has a successor, so none of them is invoked through the forward branch). -/
def walkEventsMid {A : Type} (bf : Nat → Bool) (a : A) : List Nat → List (Ev A)
  | [] => []
  | c :: l => (if bf c then [] else [⟨c, a, false⟩]) ++ walkEventsMid bf a l

/-- Concrete Connection heap used by the witnesses: identifiers 2, 1, 0 linked
in that order into signal 0's list, all unblocked. -/
def exConns : Nat → ConnSt := fun i =>
  if i = 2 then ⟨some 0, some 1, false⟩
  else if i = 1 then ⟨some 0, some 0, false⟩
  else if i = 0 then ⟨some 0, none, false⟩
  else ⟨none, none, false⟩

/-- Concrete state used by the witnesses: signal 0 is unblocked and holds the
list 2, 1, 0. -/
def exState : State Nat :=
  { sigs := fun j => if j = 0 then ⟨some 2, false⟩ else ⟨none, false⟩
    conns := exConns
    connLive := fun i => decide (i < 3)
    delegateLive := fun i => decide (i < 3)
    trace := [] }

/-- Delegate semantics for the emission-reentrancy counterexample: the
delegate of connection 2 disconnects connection 1 (the connection immediately
after it in signal 0's list) from signal 0; all other delegates are passive. -/
def exDelta : Nat → State Nat → State Nat := fun c st =>
  if c = 2 then Signal.disconnect 0 1 5 st else st

/-- Point update of a list assignment (which list each signal holds). -/
def updL (L : Nat → List Nat) (sid : Nat) (l : List Nat) : Nat → List Nat :=
  fun j => if j = sid then l else L j

/-- Empty concrete state: no signal has connections, nothing is blocked. -/
def exEmpty : State Nat :=
  { sigs := fun _ => ⟨none, false⟩
    conns := fun _ => ⟨none, none, false⟩
    connLive := fun _ => false
    delegateLive := fun _ => false
    trace := [] }

/-- List assignment for the concrete witness state: signal 0 holds 2, 1, 0. -/
def exL : Nat → List Nat := fun j => if j = 0 then [2, 1, 0] else []

/-- Well-formedness of a state with respect to the live signals `Ds`, the live
connections `Dc`, and an assignment `L` of the list held by each signal:
every live signal's head pointer chains through exactly `L sid`, without
duplicates, and every member carries the matching back-reference; conversely a
live connection's back-reference, when set, points to a live signal whose list
contains it, and a connection without a back-reference has a cleared
next-link. -/
def WF {A : Type} (s : State A) (Ds Dc : List Nat) (L : Nat → List Nat) : Prop :=
  (∀ sid ∈ Ds, isChain s ((s.sigs sid).connections) (L sid) = true
    ∧ (L sid).Nodup
    ∧ ∀ c ∈ L sid, c ∈ Dc ∧ (s.conns c).signal = some sid)
  ∧ ∀ c ∈ Dc,
      ((s.conns c).signal = none → (s.conns c).next = none)
      ∧ ∀ sid, (s.conns c).signal = some sid → sid ∈ Ds ∧ c ∈ L sid

/-! ### Basic lemmas about chains, walk events and state updates -/

theorem State.trace_congr {A : Type} (s : State A) {t1 t2 : List (Ev A)}
    (h : t1 = t2) : ({ s with trace := t1 } : State A) = { s with trace := t2 } := by
  rw [h]

@[simp]
theorem isChain_nil {A : Type} (s : State A) (p : Option Nat) :
    isChain s p [] = p.isNone := rfl

theorem isChain_cons {A : Type} (s : State A) (p : Option Nat) (x : Nat) (l : List Nat) :
    isChain s p (x :: l) = true ↔ p = some x ∧ isChain s ((s.conns x).next) l = true := by
  simp [isChain]

theorem isChainSeg_nil {A : Type} (s : State A) (p q : Option Nat) :
    isChainSeg s p [] q = true ↔ p = q := by
  simp [isChainSeg]

theorem isChainSeg_cons {A : Type} (s : State A) (p q : Option Nat) (x : Nat) (l : List Nat) :
    isChainSeg s p (x :: l) q = true ↔
      p = some x ∧ isChainSeg s ((s.conns x).next) l q = true := by
  simp [isChainSeg]

theorem isChain_eq_seg {A : Type} (s : State A) (p : Option Nat) (l : List Nat) :
    isChain s p l = isChainSeg s p l none := by
  induction l generalizing p with
  | nil => cases p <;> simp [isChain, isChainSeg]
  | cons x l ih => simp [isChain, isChainSeg, ih]

theorem isChainSeg_append {A : Type} (s : State A) (p q : Option Nat) (u v : List Nat) :
    isChainSeg s p (u ++ v) q = true ↔
      ∃ r, isChainSeg s p u r = true ∧ isChainSeg s r v q = true := by
  induction u generalizing p with
  | nil =>
    simp only [List.nil_append, isChainSeg_nil]
    constructor
    · intro h; exact ⟨p, rfl, h⟩
    · rintro ⟨r, rfl, h⟩; exact h
  | cons x u ih =>
    simp only [List.cons_append, isChainSeg_cons, ih]
    constructor
    · rintro ⟨hp, r, h1, h2⟩; exact ⟨r, ⟨hp, h1⟩, h2⟩
    · rintro ⟨r, ⟨hp, h1⟩, h2⟩; exact ⟨hp, r, h1, h2⟩

theorem isChainSeg_snoc {A : Type} (s : State A) (p q : Option Nat) (u : List Nat) (x : Nat) :
    isChainSeg s p (u ++ [x]) q = true ↔
      isChainSeg s p u (some x) = true ∧ q = (s.conns x).next := by
  rw [isChainSeg_append]
  constructor
  · rintro ⟨r, h1, h2⟩
    rw [isChainSeg_cons] at h2
    obtain ⟨rfl, h2⟩ := h2
    rw [isChainSeg_nil] at h2
    exact ⟨h1, h2.symm⟩
  · rintro ⟨h1, rfl⟩
    exact ⟨some x, h1, by simp [isChainSeg]⟩

theorem isChainSeg_frame {A : Type} (s s' : State A) (l : List Nat)
    (h : ∀ x ∈ l, (s'.conns x).next = (s.conns x).next) (p q : Option Nat) :
    isChainSeg s' p l q = isChainSeg s p l q := by
  induction l generalizing p with
  | nil => rfl
  | cons x l ih =>
    simp only [isChainSeg]
    rw [h x (by simp), ih fun y hy => h y (by simp [hy])]

theorem isChain_frame {A : Type} (s s' : State A) (l : List Nat)
    (h : ∀ x ∈ l, (s'.conns x).next = (s.conns x).next) (p : Option Nat) :
    isChain s' p l = isChain s p l := by
  rw [isChain_eq_seg, isChain_eq_seg]
  exact isChainSeg_frame s s' l h p none

theorem isChain_head_none {A : Type} {s : State A} {l : List Nat}
    (h : isChain s none l = true) : l = [] := by
  cases l with
  | nil => rfl
  | cons x l => simp [isChain] at h

theorem isChain_empty_iff {A : Type} {s : State A} {p : Option Nat} {l : List Nat}
    (h : isChain s p l = true) : p = none ↔ l = [] := by
  cases l with
  | nil => simpa [isChain, Option.isNone_iff_eq_none] using h
  | cons x l =>
    rw [isChain_cons] at h
    simp [h.1]

theorem walkEvents_congr {A : Type} {bf bg : Nat → Bool} (a : A) {l : List Nat}
    (h : ∀ c ∈ l, bf c = bg c) : walkEvents bf a l = walkEvents bg a l := by
  induction l with
  | nil => rfl
  | cons c l ih =>
    simp only [walkEvents]
    rw [h c (by simp), ih fun y hy => h y (by simp [hy])]

theorem walkEventsMid_congr {A : Type} {bf bg : Nat → Bool} (a : A) {l : List Nat}
    (h : ∀ c ∈ l, bf c = bg c) : walkEventsMid bf a l = walkEventsMid bg a l := by
  induction l with
  | nil => rfl
  | cons c l ih =>
    simp only [walkEventsMid]
    rw [h c (by simp), ih fun y hy => h y (by simp [hy])]

theorem walkEvents_append {A : Type} (bf : Nat → Bool) (a : A) (u v : List Nat)
    (hv : v ≠ []) :
    walkEvents bf a (u ++ v) = walkEventsMid bf a u ++ walkEvents bf a v := by
  induction u with
  | nil => rfl
  | cons c u ih =>
    have hne : (u ++ v).isEmpty = false := by
      cases hu : u ++ v with
      | nil => exact absurd (List.append_eq_nil.mp hu).2 hv
      | cons x xs => rfl
    simp only [List.cons_append, walkEvents, walkEventsMid, List.append_eq, hne, ih,
      List.append_assoc]

theorem walkEvents_map_conn {A : Type} (bf : Nat → Bool) (a : A) (l : List Nat) :
    (walkEvents bf a l).map Ev.conn = l.filter fun c => !bf c := by
  induction l with
  | nil => rfl
  | cons c l ih =>
    by_cases h : bf c <;> simp [walkEvents, List.filter, h, ih]

theorem walkEvents_mem {A : Type} {bf : Nat → Bool} {a : A} {l : List Nat}
    {e : Ev A} (he : e ∈ walkEvents bf a l) : e.arg = a ∧ e.conn ∈ l := by
  induction l with
  | nil => simp [walkEvents] at he
  | cons c l ih =>
    simp only [walkEvents, List.mem_append] at he
    rcases he with he | he
    · by_cases h : bf c <;> simp [h] at he
      subst he
      exact ⟨rfl, by simp⟩
    · obtain ⟨h1, h2⟩ := ih he
      exact ⟨h1, by simp [h2]⟩

theorem walkEvents_moved {A : Type} {bf : Nat → Bool} {a : A} {l : List Nat}
    (hnd : l.Nodup) {e : Ev A} (he : e ∈ walkEvents bf a l) :
    e.moved = decide (l.getLast? = some e.conn) := by
  induction l with
  | nil => simp [walkEvents] at he
  | cons c l ih =>
    simp only [walkEvents, List.mem_append] at he
    rcases he with he | he
    · by_cases h : bf c <;> simp [h] at he
      subst he
      cases l with
      | nil => simp [List.isEmpty]
      | cons x l =>
        have hc : c ∉ x :: l := (List.nodup_cons.mp hnd).1
        have : (x :: l).getLast? ≠ some c := by
          intro hlast
          obtain ⟨hne, hc2⟩ :=
            List.mem_getLast?_eq_getLast (Option.mem_def.mpr hlast)
          exact hc (hc2 ▸ List.getLast_mem hne)
        simp only [List.isEmpty]
        rw [List.getLast?_cons_cons]
        simp [this]
    · have hconn := (walkEvents_mem he).2
      have hc : c ∉ l := (List.nodup_cons.mp hnd).1
      have hne : l ≠ [] := by rintro rfl; simp at hconn
      rw [ih (List.nodup_cons.mp hnd).2 he]
      cases l with
      | nil => simp at hconn
      | cons x l => rw [List.getLast?_cons_cons]

/-! ### Characterization of a dispatch pass whose delegates do not touch the
registration state -/

theorem emitLoop_pure {A : Type} (δ : Nat → State A → State A) (a : A) :
    ∀ (l : List Nat) (fuel : Nat) (p : Option Nat) (s : State A),
      isChain s p l = true → l.length ≤ fuel →
      (∀ c ∈ l, ∀ st, δ c st = st) →
      emitLoop δ a fuel p s =
        { s with trace := s.trace ++ walkEvents (fun c => (s.conns c).blocked) a l } := by
  intro l
  induction l with
  | nil =>
    intro fuel p s hch _ _
    have hp : p = none := by simpa [Option.isNone_iff_eq_none] using hch
    subst hp
    cases fuel <;> simp [emitLoop, walkEvents]
  | cons c l ih =>
    intro fuel p s hch hfuel hδ
    rw [isChain_cons] at hch
    obtain ⟨rfl, hch⟩ := hch
    have hδtail : ∀ x ∈ l, ∀ st, δ x st = st := fun x hx => hδ x (by simp [hx])
    cases fuel with
    | zero => simp at hfuel
    | succ fuel =>
      have hfuel2 : l.length ≤ fuel := by simpa using hfuel
      simp only [emitLoop]
      have hmov : ((s.conns c).next).isNone = l.isEmpty := by
        cases l with
        | nil =>
          have : (s.conns c).next = none := by
            simpa [Option.isNone_iff_eq_none] using hch
          simp [this]
        | cons x xs =>
          rw [isChain_cons] at hch
          simp [hch.1]
      by_cases hb : (s.conns c).blocked
      · have hcall : Connection.call δ c a ((s.conns c).next).isNone s = s := by
          simp [Connection.call, hb]
        rw [hcall, ih fuel ((s.conns c).next) s hch hfuel2 hδtail]
        exact State.trace_congr s (by simp [walkEvents, hb])
      · have hcall : Connection.call δ c a ((s.conns c).next).isNone s
            = { s with trace := s.trace ++ [⟨c, a, ((s.conns c).next).isNone⟩] } := by
          rw [Connection.call, if_neg hb, hδ c (by simp)]
        rw [hcall]
        have hch1 : isChain ({ s with trace := s.trace ++ [⟨c, a, ((s.conns c).next).isNone⟩] } :
            State A) ((s.conns c).next) l = true :=
          (isChain_frame s
            { s with trace := s.trace ++ [⟨c, a, ((s.conns c).next).isNone⟩] } l
            (fun x _ => rfl) ((s.conns c).next)).trans hch
        rw [ih fuel ((s.conns c).next) _ hch1 hfuel2 hδtail]
        exact State.trace_congr s (by simp [walkEvents, hb, hmov, List.append_assoc])

theorem emit_pure {A : Type} (δ : Nat → State A → State A) (sid : Nat) (a : A)
    {l : List Nat} {fuel : Nat} {s : State A}
    (hch : isChain s ((s.sigs sid).connections) l = true)
    (hfuel : l.length ≤ fuel)
    (hδ : ∀ c ∈ l, ∀ st, δ c st = st)
    (hnb : (s.sigs sid).blocked = false) :
    Signal.emit δ sid a fuel s =
      { s with trace := s.trace ++ walkEvents (fun c => (s.conns c).blocked) a l } := by
  rw [Signal.emit, if_neg (by simp [hnb])]
  exact emitLoop_pure δ a l fuel _ s hch hfuel hδ

/-! ### Characterization of connect and of the Connection constructor -/

theorem connect_char {A : Type} (sid p : Nat) (s : State A) :
    (∀ j, (Signal.connect sid p s).sigs j
        = if j = sid then { s.sigs sid with connections := some p } else s.sigs j)
    ∧ (∀ x, (Signal.connect sid p s).conns x
        = if x = p then
            { s.conns p with next := (s.sigs sid).connections, signal := some sid }
          else s.conns x)
    ∧ (Signal.connect sid p s).trace = s.trace
    ∧ (Signal.connect sid p s).connLive = s.connLive
    ∧ (Signal.connect sid p s).delegateLive = s.delegateLive := by
  refine ⟨fun j => ?_, fun x => ?_, rfl, rfl, rfl⟩
  · simp [Signal.connect]
  · by_cases hx : x = p <;> simp [Signal.connect, hx]

theorem create_char {A : Type} (sid c : Nat) (s : State A) :
    (∀ j, (Connection.create sid c s).sigs j
        = if j = sid then { s.sigs sid with connections := some c } else s.sigs j)
    ∧ (∀ x, (Connection.create sid c s).conns x
        = if x = c then ⟨some sid, (s.sigs sid).connections, false⟩ else s.conns x)
    ∧ (Connection.create sid c s).trace = s.trace
    ∧ (∀ x, (Connection.create sid c s).connLive x = if x = c then true else s.connLive x)
    ∧ (∀ x, (Connection.create sid c s).delegateLive x
        = if x = c then true else s.delegateLive x) := by
  refine ⟨fun j => ?_, fun x => ?_, rfl, fun x => rfl, fun x => rfl⟩
  · simp [Connection.create, Signal.connect]
  · by_cases hx : x = c <;> simp [Connection.create, Signal.connect, hx]

/-! ### Characterization of disconnect -/

theorem discLoop_not_found {A : Type} (conn : Nat) :
    ∀ (m : List Nat) (fuel : Nat) (p : Option Nat) (s : State A),
      isChain s p m = true → conn ∉ m → m.length ≤ fuel →
      discLoop conn fuel p s = s := by
  intro m
  induction m with
  | nil =>
    intro fuel p s hch _ _
    have hp : p = none := by simpa [Option.isNone_iff_eq_none] using hch
    subst hp
    cases fuel <;> simp [discLoop]
  | cons c m ih =>
    intro fuel p s hch hm hfuel
    rw [isChain_cons] at hch
    obtain ⟨rfl, hch⟩ := hch
    cases fuel with
    | zero => simp at hfuel
    | succ fuel =>
      have hcond : (s.conns c).next ≠ some conn := by
        cases m with
        | nil =>
          have : (s.conns c).next = none := by
            simpa [Option.isNone_iff_eq_none] using hch
          simp [this]
        | cons x xs =>
          rw [isChain_cons] at hch
          rw [hch.1]
          intro hxc
          rw [Option.some.injEq] at hxc
          exact hm (by simp [hxc])
      simp only [discLoop, if_neg hcond]
      exact ih fuel ((s.conns c).next) s hch (fun h => hm (by simp [h])) (by simpa using hfuel)

theorem discLoop_found {A : Type} (conn pred : Nat) (m2 : List Nat) :
    ∀ (m1 : List Nat) (fuel : Nat) (p : Option Nat) (s : State A),
      isChain s p (m1 ++ pred :: conn :: m2) = true →
      conn ∉ m1 → conn ≠ pred → m1.length < fuel →
      (∀ x, (discLoop conn fuel p s).conns x =
          if x = conn then { s.conns conn with next := none, signal := none }
          else if x = pred then { s.conns pred with next := (s.conns conn).next }
          else s.conns x)
      ∧ (discLoop conn fuel p s).sigs = s.sigs
      ∧ (discLoop conn fuel p s).trace = s.trace
      ∧ (discLoop conn fuel p s).connLive = s.connLive
      ∧ (discLoop conn fuel p s).delegateLive = s.delegateLive := by
  intro m1
  induction m1 with
  | nil =>
    intro fuel p s hch _ hne hfuel
    rw [List.nil_append, isChain_cons] at hch
    obtain ⟨rfl, hch⟩ := hch
    rw [isChain_cons] at hch
    obtain ⟨hnext, _⟩ := hch
    cases fuel with
    | zero => omega
    | succ fuel =>
      simp only [discLoop, if_pos hnext]
      refine ⟨fun x => ?_, rfl, rfl, rfl, rfl⟩
      by_cases hx : x = conn
      · subst hx
        simp [setConn, hne]
      · by_cases hx2 : x = pred
        · subst hx2
          simp [setConn, hx, Ne.symm hne]
        · simp [setConn, hx, hx2]
  | cons y m1 ih =>
    intro fuel p s hch hm hne hfuel
    rw [List.cons_append, isChain_cons] at hch
    obtain ⟨rfl, hch⟩ := hch
    cases fuel with
    | zero => omega
    | succ fuel =>
      have hcond : (s.conns y).next ≠ some conn := by
        cases m1 with
        | nil =>
          rw [List.nil_append, isChain_cons] at hch
          rw [hch.1]
          intro h
          rw [Option.some.injEq] at h
          exact hne h.symm
        | cons z zs =>
          rw [List.cons_append, isChain_cons] at hch
          rw [hch.1]
          intro hzc
          rw [Option.some.injEq] at hzc
          exact hm (by simp [hzc])
      simp only [discLoop, if_neg hcond]
      exact ih fuel ((s.conns y).next) s hch (fun h => hm (by simp [h])) hne
        (by simpa using Nat.lt_of_succ_lt_succ hfuel)

theorem disconnect_not_mem {A : Type} {sid conn : Nat} {fuel : Nat} {l : List Nat}
    {s : State A}
    (hch : isChain s ((s.sigs sid).connections) l = true)
    (hm : conn ∉ l) (hfuel : l.length ≤ fuel) :
    Signal.disconnect sid conn fuel s = s := by
  cases l with
  | nil =>
    have hp : (s.sigs sid).connections = none := by
      simpa [Option.isNone_iff_eq_none] using hch
    rw [Signal.disconnect]
    rw [if_neg (by simp [hp])]
    rw [hp]
    cases fuel <;> simp [discLoop]
  | cons c rest =>
    have hc : (s.sigs sid).connections = some c := by
      rw [isChain_cons] at hch
      exact hch.1
    have hcne : c ≠ conn := fun h => hm (by simp [h])
    rw [Signal.disconnect]
    rw [if_neg (by simp [hc, hcne])]
    exact discLoop_not_found conn (c :: rest) fuel _ s (hc ▸ hch) hm hfuel

theorem disconnect_mem {A : Type} {sid conn : Nat} {fuel : Nat} {l : List Nat} {s : State A}
    (hch : isChain s ((s.sigs sid).connections) l = true)
    (hnd : l.Nodup) (hm : conn ∈ l) (hfuel : l.length ≤ fuel) :
    (∀ j, j ≠ sid → (Signal.disconnect sid conn fuel s).sigs j = s.sigs j)
    ∧ ((Signal.disconnect sid conn fuel s).sigs sid).blocked = (s.sigs sid).blocked
    ∧ ((Signal.disconnect sid conn fuel s).sigs sid).connections
        = (if (s.sigs sid).connections = some conn then (s.conns conn).next
           else (s.sigs sid).connections)
    ∧ (Signal.disconnect sid conn fuel s).trace = s.trace
    ∧ (Signal.disconnect sid conn fuel s).connLive = s.connLive
    ∧ (Signal.disconnect sid conn fuel s).delegateLive = s.delegateLive
    ∧ (Signal.disconnect sid conn fuel s).conns conn
        = { s.conns conn with next := none, signal := none }
    ∧ (∀ x, x ≠ conn → (s.conns x).next ≠ some conn →
        (Signal.disconnect sid conn fuel s).conns x = s.conns x)
    ∧ (∀ x, ((Signal.disconnect sid conn fuel s).conns x).blocked = (s.conns x).blocked)
    ∧ (∀ x, x ≠ conn →
        ((Signal.disconnect sid conn fuel s).conns x).signal = (s.conns x).signal)
    ∧ isChain (Signal.disconnect sid conn fuel s)
        (((Signal.disconnect sid conn fuel s).sigs sid).connections) (l.erase conn) = true := by
  cases l with
  | nil => simp at hm
  | cons hd rest =>
    obtain ⟨hhd, hchrest⟩ := (isChain_cons s _ hd rest).mp hch
    by_cases hcase : hd = conn
    · subst hcase
      have hcm : hd ∉ rest := (List.nodup_cons.mp hnd).1
      have hcond : (s.sigs sid).connections = some hd := hhd
      simp only [Signal.disconnect, if_pos hcond]
      refine ⟨?_, ?_, ?_, rfl, rfl, rfl, ?_, ?_, ?_, ?_, ?_⟩
      · intro j hj
        simp [setSig, setConn, hj]
      · simp [setSig, setConn]
      · simp [setSig, setConn, hcond]
      · simp [setSig, setConn]
      · intro x hx _
        simp [setSig, setConn, hx]
      · intro x
        by_cases hx : x = hd <;> simp [setSig, setConn, hx]
      · intro x hx
        simp [setSig, setConn, hx]
      · rw [List.erase_cons_head]
        have hfr : ∀ x ∈ rest,
            ((setConn
                (setConn (setSig s sid { s.sigs sid with connections := (s.conns hd).next })
                  hd
                  { (setSig s sid
                      { s.sigs sid with connections := (s.conns hd).next }).conns hd with
                    next := none })
                hd
                { (setConn (setSig s sid { s.sigs sid with connections := (s.conns hd).next })
                      hd
                      { (setSig s sid
                          { s.sigs sid with connections := (s.conns hd).next }).conns hd with
                        next := none }).conns hd with
                  signal := none }).conns x).next = (s.conns x).next := by
          intro x hx
          have : x ≠ hd := fun h => hcm (h ▸ hx)
          simp [setConn, setSig, this]
        have hch2 := (isChain_frame s _ rest hfr ((s.conns hd).next)).trans hchrest
        simpa [setSig, setConn] using hch2
    · have hmr : conn ∈ rest := by
        rcases List.mem_cons.mp hm with h | h
        · exact absurd h.symm hcase
        · exact h
      obtain ⟨u, v, hrest⟩ := List.append_of_mem hmr
      have hsplit : ∃ m1 pred v2, hd :: rest = m1 ++ pred :: conn :: v2 := by
        rcases List.eq_nil_or_concat u with rfl | ⟨u0, x, rfl⟩
        · exact ⟨[], hd, v, by simp [hrest]⟩
        · exact ⟨hd :: u0, x, v, by simp [hrest, List.concat_eq_append]⟩
      obtain ⟨m1, pred, v2, hl⟩ := hsplit
      have hndl : (m1 ++ pred :: conn :: v2).Nodup := by rw [hl] at hnd; exact hnd
      have hchl : isChain s ((s.sigs sid).connections) (m1 ++ pred :: conn :: v2) = true := by
        rw [hl] at hch; exact hch
      have hdisj := (List.nodup_append.mp hndl).2.2
      have hnd2 := (List.nodup_append.mp hndl).2.1
      have hconn_nm1 : conn ∉ m1 := fun h => hdisj h (by simp)
      have hpred_nm1 : pred ∉ m1 := fun h => hdisj h (by simp)
      have hpred_ne : conn ≠ pred := by
        intro h
        exact (List.nodup_cons.mp hnd2).1 (by simp [h])
      have hconn_nv2 : conn ∉ v2 := (List.nodup_cons.mp (List.nodup_cons.mp hnd2).2).1
      have hpred_nv2 : pred ∉ v2 := fun h => (List.nodup_cons.mp hnd2).1 (by simp [h])
      have hflt : m1.length < fuel := by
        have h2 : (m1 ++ pred :: conn :: v2).length ≤ fuel := by rw [← hl]; exact hfuel
        simp [List.length_append] at h2
        omega
      -- segment facts from the chain
      have hs0 : isChainSeg s ((s.sigs sid).connections) (m1 ++ pred :: conn :: v2) none
          = true := by
        rw [← isChain_eq_seg]; exact hchl
      rw [isChainSeg_append] at hs0
      obtain ⟨r, hseg1, hseg2⟩ := hs0
      rw [isChainSeg_cons] at hseg2
      obtain ⟨rfl, hseg2⟩ := hseg2
      rw [isChainSeg_cons] at hseg2
      obtain ⟨hpn, hseg2⟩ := hseg2
      have hchv : isChain s ((s.conns conn).next) v2 = true := by
        rw [isChain_eq_seg]; exact hseg2
      have hcond : ¬((s.sigs sid).connections = some conn) := by
        rw [hhd]
        intro h
        rw [Option.some.injEq] at h
        exact hcase h
      obtain ⟨hconns, hsigs, htr, hcl, hdl⟩ :=
        discLoop_found conn pred v2 m1 fuel ((s.sigs sid).connections) s hchl hconn_nm1
          hpred_ne hflt
      simp only [Signal.disconnect, if_neg hcond]
      refine ⟨?_, ?_, ?_, htr, hcl, hdl, ?_, ?_, ?_, ?_, ?_⟩
      · intro j _
        rw [hsigs]
      · rw [hsigs]
      · simp [hsigs, hcond]
      · rw [hconns conn]
        simp
      · intro x hx hnx
        have hxp : x ≠ pred := fun h => hnx (h ▸ hpn)
        rw [hconns x, if_neg hx, if_neg hxp]
      · intro x
        rw [hconns x]
        by_cases hx : x = conn
        · simp [hx]
        · by_cases hxp : x = pred <;> simp [hx, hxp, Ne.symm hpred_ne]
      · intro x hx
        rw [hconns x, if_neg hx]
        by_cases hxp : x = pred <;> simp [hxp]
      · -- the remaining list is still a chain
        rw [hsigs, hl, List.erase_append_right _ hconn_nm1,
          List.erase_cons_tail (by simp [Ne.symm hpred_ne]), List.erase_cons_head]
        rw [isChain_eq_seg, isChainSeg_append]
        refine ⟨some pred, ?_, ?_⟩
        · have hfr1 : ∀ x ∈ m1,
              ((discLoop conn fuel ((s.sigs sid).connections) s).conns x).next
                = (s.conns x).next := by
            intro x hx
            have h1 : x ≠ conn := fun h => hconn_nm1 (h ▸ hx)
            have h2 : x ≠ pred := fun h => hpred_nm1 (h ▸ hx)
            rw [hconns x, if_neg h1, if_neg h2]
          rw [isChainSeg_frame s _ m1 hfr1]
          exact hseg1
        · rw [isChainSeg_cons]
          refine ⟨rfl, ?_⟩
          have hp2 : ((discLoop conn fuel ((s.sigs sid).connections) s).conns pred).next
              = (s.conns conn).next := by
            rw [hconns pred, if_neg (Ne.symm hpred_ne)]
            simp
          rw [hp2]
          have hfr2 : ∀ x ∈ v2,
              ((discLoop conn fuel ((s.sigs sid).connections) s).conns x).next
                = (s.conns x).next := by
            intro x hx
            have h1 : x ≠ conn := fun h => hconn_nv2 (h ▸ hx)
            have h2 : x ≠ pred := fun h => hpred_nv2 (h ▸ hx)
            rw [hconns x, if_neg h1, if_neg h2]
          rw [isChainSeg_frame s _ v2 hfr2]
          rw [← isChain_eq_seg]
          exact hchv

theorem disconnect_head_char {A : Type} {sid conn : Nat} (fuel : Nat) {s : State A}
    (hc : (s.sigs sid).connections = some conn) :
    ((Signal.disconnect sid conn fuel s).sigs sid).connections = (s.conns conn).next
    ∧ ((Signal.disconnect sid conn fuel s).sigs sid).blocked = (s.sigs sid).blocked
    ∧ (∀ j, j ≠ sid → (Signal.disconnect sid conn fuel s).sigs j = s.sigs j)
    ∧ (Signal.disconnect sid conn fuel s).conns conn
        = { s.conns conn with next := none, signal := none }
    ∧ (∀ x, x ≠ conn → (Signal.disconnect sid conn fuel s).conns x = s.conns x)
    ∧ (Signal.disconnect sid conn fuel s).trace = s.trace
    ∧ (Signal.disconnect sid conn fuel s).connLive = s.connLive
    ∧ (Signal.disconnect sid conn fuel s).delegateLive = s.delegateLive := by
  simp only [Signal.disconnect, if_pos hc]
  refine ⟨?_, ?_, ?_, ?_, ?_, rfl, rfl, rfl⟩
  · simp [setSig, setConn]
  · simp [setSig, setConn]
  · intro j hj
    simp [setSig, setConn, hj]
  · simp [setSig, setConn]
  · intro x hx
    simp [setSig, setConn, hx]

theorem destructLoop_char {A : Type} (sid : Nat) :
    ∀ (l : List Nat) (fuel : Nat) (s : State A),
      isChain s ((s.sigs sid).connections) l = true → l.Nodup → l.length ≤ fuel →
      ((destructLoop sid fuel ((s.sigs sid).connections) s).sigs sid).connections = none
      ∧ ((destructLoop sid fuel ((s.sigs sid).connections) s).sigs sid).blocked
          = (s.sigs sid).blocked
      ∧ (∀ j, j ≠ sid →
          (destructLoop sid fuel ((s.sigs sid).connections) s).sigs j = s.sigs j)
      ∧ (∀ c ∈ l, (destructLoop sid fuel ((s.sigs sid).connections) s).conns c
          = { s.conns c with next := none, signal := none })
      ∧ (∀ x, x ∉ l →
          (destructLoop sid fuel ((s.sigs sid).connections) s).conns x = s.conns x)
      ∧ (destructLoop sid fuel ((s.sigs sid).connections) s).trace = s.trace
      ∧ (destructLoop sid fuel ((s.sigs sid).connections) s).connLive = s.connLive
      ∧ (destructLoop sid fuel ((s.sigs sid).connections) s).delegateLive
          = s.delegateLive := by
  intro l
  induction l with
  | nil =>
    intro fuel s hch _ _
    have hp : (s.sigs sid).connections = none := by
      simpa [Option.isNone_iff_eq_none] using hch
    rw [hp]
    cases fuel <;> simp [destructLoop, hp]
  | cons c rest ih =>
    intro fuel s hch hnd hfuel
    obtain ⟨hc, hchrest⟩ := (isChain_cons s _ c rest).mp hch
    have hcm : c ∉ rest := (List.nodup_cons.mp hnd).1
    cases fuel with
    | zero => simp at hfuel
    | succ fuel =>
      rw [hc]
      simp only [destructLoop]
      obtain ⟨e1, e2, e3, e4, e5, e6, e7, e8⟩ :=
        disconnect_head_char fuel hc
      have hchrest1 : isChain (Signal.disconnect sid c fuel s)
          (((Signal.disconnect sid c fuel s).sigs sid).connections) rest = true := by
        rw [e1]
        refine (isChain_frame s _ rest ?_ ((s.conns c).next)).trans hchrest
        intro x hx
        rw [e5 x fun h => hcm (h ▸ hx)]
      obtain ⟨d1, d2, d3, d4, d5, d6, d7, d8⟩ :=
        ih fuel (Signal.disconnect sid c fuel s) hchrest1 (List.nodup_cons.mp hnd).2
          (by simpa using hfuel)
      rw [e1] at d1 d2 d3 d4 d5 d6 d7 d8
      refine ⟨d1, d2.trans e2, ?_, ?_, ?_, d6.trans e6, d7.trans e7, d8.trans e8⟩
      · intro j hj
        rw [d3 j hj, e3 j hj]
      · intro x hx
        rcases List.mem_cons.mp hx with rfl | hx2
        · rw [d5 x (by exact hcm), e4]
        · rw [d4 x hx2, e5 x fun h => hcm (h ▸ hx2)]
      · intro x hx
        have hx1 : x ≠ c := fun h => hx (by simp [h])
        have hx2 : x ∉ rest := fun h => hx (by simp [h])
        rw [d5 x hx2, e5 x hx1]

/-! ### Dispatch prefix walk and the reentrant-disconnect characterization -/

theorem emitLoop_seg_pure {A : Type} (δ : Nat → State A → State A) (a : A) (t0 : Nat) :
    ∀ (u : List Nat) (f2 : Nat) (p : Option Nat) (s : State A),
      isChainSeg s p u (some t0) = true →
      (∀ c ∈ u, ∀ st, δ c st = st) →
      emitLoop δ a (u.length + f2) p s
        = emitLoop δ a f2 (some t0)
            { s with trace := s.trace ++ walkEventsMid (fun c => (s.conns c).blocked) a u } := by
  intro u
  induction u with
  | nil =>
    intro f2 p s hseg _
    rw [isChainSeg_nil] at hseg
    subst hseg
    simp [walkEventsMid]
  | cons c u ih =>
    intro f2 p s hseg hδ
    rw [isChainSeg_cons] at hseg
    obtain ⟨rfl, hseg⟩ := hseg
    have hlen : (c :: u).length + f2 = (u.length + f2) + 1 := by
      simp [Nat.add_right_comm]
    rw [hlen]
    simp only [emitLoop]
    have hmov : ((s.conns c).next).isNone = false := by
      cases u with
      | nil =>
        rw [isChainSeg_nil] at hseg
        rw [hseg]
        rfl
      | cons x xs =>
        rw [isChainSeg_cons] at hseg
        rw [hseg.1]
        rfl
    by_cases hb : (s.conns c).blocked
    · have hcall : Connection.call δ c a ((s.conns c).next).isNone s = s := by
        simp [Connection.call, hb]
      rw [hcall, ih f2 ((s.conns c).next) s hseg fun x hx => hδ x (by simp [hx])]
      have htr : walkEventsMid (fun x => (s.conns x).blocked) a (c :: u)
          = walkEventsMid (fun x => (s.conns x).blocked) a u := by
        simp [walkEventsMid, hb]
      rw [htr]
    · have hcall : Connection.call δ c a ((s.conns c).next).isNone s
          = { s with trace := s.trace ++ [⟨c, a, ((s.conns c).next).isNone⟩] } := by
        rw [Connection.call, if_neg hb, hδ c (by simp)]
      rw [hcall]
      have hseg1 : isChainSeg ({ s with trace := s.trace ++ [⟨c, a,
          ((s.conns c).next).isNone⟩] } : State A) ((s.conns c).next) u (some t0) = true :=
        (isChainSeg_frame s
          { s with trace := s.trace ++ [⟨c, a, ((s.conns c).next).isNone⟩] } u
          (fun x _ => rfl) ((s.conns c).next) (some t0)).trans hseg
      rw [ih f2 ((s.conns c).next) _ hseg1 fun x hx => hδ x (by simp [hx])]
      exact congrArg (emitLoop δ a f2 (some t0))
        (State.trace_congr s (by simp [walkEventsMid, hb, hmov, List.append_assoc]))

theorem emitLoop_step {A : Type} (δ : Nat → State A → State A) (a : A) (f : Nat) (c : Nat)
    (s : State A) :
    emitLoop δ a (f + 1) (some c) s
      = emitLoop δ a f ((s.conns c).next)
          (Connection.call δ c a ((s.conns c).next).isNone s) := by
  simp [emitLoop]

theorem isChain_next_mem {A : Type} {s : State A} :
    ∀ {l : List Nat} {p : Option Nat}, isChain s p l = true →
      ∀ x ∈ l, (s.conns x).next = none ∨ ∃ y ∈ l, (s.conns x).next = some y := by
  intro l
  induction l with
  | nil => intro p _ x hx; simp at hx
  | cons c rest ih =>
    intro p hch x hx
    obtain ⟨hp, hch2⟩ := (isChain_cons s p c rest).mp hch
    rcases List.mem_cons.mp hx with hxc | hx2
    · cases rest with
      | nil =>
        left
        rw [hxc]
        simpa [Option.isNone_iff_eq_none] using hch2
      | cons y ys =>
        right
        refine ⟨y, by simp, ?_⟩
        rw [hxc]
        exact ((isChain_cons s _ y ys).mp hch2).1
    · rcases ih hch2 x hx2 with h | ⟨y, hy, hnext⟩
      · exact Or.inl h
      · exact Or.inr ⟨y, by simp [hy], hnext⟩

theorem emit_reentrant_disc {A : Type} {sid t d : Nat} {dfuel : Nat} (a : A)
    {u v : List Nat} {s : State A}
    (hch : isChain s ((s.sigs sid).connections) (u ++ t :: v) = true)
    (hnd : (u ++ t :: v).Nodup)
    (hsb : (s.sigs sid).blocked = false)
    (hcb : ∀ c ∈ u ++ t :: v, (s.conns c).blocked = false)
    (hdm : d ∈ u ++ t :: v)
    (hdv : v.head? ≠ some d)
    (hdfuel : (u ++ t :: v).length ≤ dfuel)
    {fuel : Nat} (hfuel : (u ++ t :: v).length ≤ fuel) :
    (Signal.emit (fun c st => if c = t then Signal.disconnect sid d dfuel st else st)
        sid a fuel s).trace
      = s.trace ++ walkEvents (fun _ => false) a
          (if d ∈ u ∨ d = t then u ++ t :: v else (u ++ t :: v).erase d) := by
  have hlen0 : (u ++ t :: v).length = u.length + (v.length + 1) := by simp
  have hndtv : (t :: v).Nodup := (List.nodup_append.mp hnd).2.1
  have hdisj : u.Disjoint (t :: v) := (List.nodup_append.mp hnd).2.2
  have htnu : t ∉ u := fun h => hdisj h (by simp)
  have htnv : t ∉ v := (List.nodup_cons.mp hndtv).1
  have hseg0 : isChainSeg s ((s.sigs sid).connections) (u ++ t :: v) none = true := by
    rw [← isChain_eq_seg]; exact hch
  rw [isChainSeg_append] at hseg0
  obtain ⟨r, hsegU, hsegTV⟩ := hseg0
  rw [isChainSeg_cons] at hsegTV
  obtain ⟨hr, hsegTV⟩ := hsegTV
  subst hr
  have hchv : isChain s ((s.conns t).next) v = true := by
    rw [isChain_eq_seg]; exact hsegTV
  have hdval : ∀ (h : ¬(d ∈ u ∨ d = t)), d ∈ v := by
    intro h
    rcases List.mem_append.mp hdm with h1 | h1
    · exact absurd (Or.inl h1) h
    · rcases List.mem_cons.mp h1 with h2 | h2
      · exact absurd (Or.inr h2) h
      · exact h2
  set δ := fun (c : Nat) (st : State A) =>
    if c = t then Signal.disconnect sid d dfuel st else st with hδdef
  have hδu : ∀ c ∈ u, ∀ st : State A, δ c st = st := by
    intro c hc st
    have hct : ¬(c = t) := fun h => htnu (h ▸ hc)
    simp [hδdef, hct]
  obtain ⟨f2, hf2⟩ : ∃ f2, fuel = u.length + f2 := ⟨fuel - u.length, by omega⟩
  obtain ⟨f3, hf3⟩ : ∃ f3, f2 = f3 + 1 := ⟨f2 - 1, by omega⟩
  have hf3v : v.length ≤ f3 := by omega
  rw [Signal.emit, if_neg (by simp [hsb]), hf2, hf3]
  rw [emitLoop_seg_pure δ a t u (f3 + 1) _ s hsegU hδu]
  set M := walkEventsMid (fun c => (s.conns c).blocked) a u with hM
  rw [emitLoop_step]
  show (emitLoop δ a f3 ((s.conns t).next)
      (Connection.call δ t a ((s.conns t).next).isNone
        { s with trace := s.trace ++ M })).trace = _
  have hbt : (s.conns t).blocked = false := hcb t (by simp)
  have hbt2 : ¬((({ s with trace := s.trace ++ M } : State A).conns t).blocked = true) := by
    simp [hbt]
  have hcall : Connection.call δ t a ((s.conns t).next).isNone { s with trace := s.trace ++ M }
      = Signal.disconnect sid d dfuel
          { s with trace := (s.trace ++ M) ++ [⟨t, a, ((s.conns t).next).isNone⟩] } := by
    rw [Connection.call, if_neg hbt2, hδdef]
    simp
  rw [hcall]
  set sMid2 : State A :=
    { s with trace := (s.trace ++ M) ++ [⟨t, a, ((s.conns t).next).isNone⟩] } with hsMid2
  have hch2 : isChain sMid2 ((sMid2.sigs sid).connections) (u ++ t :: v) = true := by
    rw [hsMid2]
    exact (isChain_frame s
      { s with trace := (s.trace ++ M) ++ [⟨t, a, ((s.conns t).next).isNone⟩] }
      (u ++ t :: v) (fun x _ => rfl) _).trans hch
  obtain ⟨g1, g2, g3, g4, g5, g6, g7, g8, g9, g10, g11⟩ :=
    disconnect_mem hch2 hnd hdm hdfuel
  set s2 := Signal.disconnect sid d dfuel sMid2 with hs2
  have hblock2 : ∀ c ∈ v, (s2.conns c).blocked = false := by
    intro c hc
    rw [g9 c]
    show (s.conns c).blocked = false
    exact hcb c (by simp [hc])
  set R := (if d ∈ u ∨ d = t then v else v.erase d : List Nat) with hR
  have hRsub : ∀ c ∈ R, c ∈ v := by
    intro c hc
    by_cases hcase : d ∈ u ∨ d = t
    · rw [hR, if_pos hcase] at hc; exact hc
    · rw [hR, if_neg hcase] at hc; exact List.mem_of_mem_erase hc
  have hchR : isChain s2 ((s.conns t).next) R = true := by
    by_cases hcase : d ∈ u ∨ d = t
    · rw [hR, if_pos hcase]
      have hdnv : d ∉ v := by
        intro hv
        rcases hcase with h | h
        · exact hdisj h (by simp [hv])
        · exact htnv (h ▸ hv)
      refine (isChain_frame sMid2 s2 v ?_ _).trans
        ((isChain_frame s sMid2 v (fun x _ => rfl) _).trans hchv)
      intro x hx
      have hxd : x ≠ d := fun h => hdnv (h ▸ hx)
      have hxn : (sMid2.conns x).next ≠ some d := by
        show (s.conns x).next ≠ some d
        rcases isChain_next_mem hchv x hx with h | ⟨y, hy, hnext⟩
        · simp [h]
        · rw [hnext]
          intro hc2
          rw [Option.some.injEq] at hc2
          exact hdnv (hc2 ▸ hy)
      rw [g8 x hxd hxn]
    · have hdu : d ∉ u := fun h => hcase (Or.inl h)
      have hdt : ¬(d = t) := fun h => hcase (Or.inr h)
      have hdvm : d ∈ v := hdval hcase
      rw [hR, if_neg hcase]
      have hheadne : (sMid2.sigs sid).connections ≠ some d := by
        show (s.sigs sid).connections ≠ some d
        cases u with
        | nil =>
          have hht : (s.sigs sid).connections = some t := by
            rw [isChainSeg_nil] at hsegU; exact hsegU
          rw [hht]
          intro h
          rw [Option.some.injEq] at h
          exact hdt h.symm
        | cons u0 ur =>
          have hh0 : (s.sigs sid).connections = some u0 := by
            rw [isChainSeg_cons] at hsegU; exact hsegU.1
          rw [hh0]
          intro h
          rw [Option.some.injEq] at h
          exact hdu (h ▸ List.mem_cons_self u0 ur)
      have htd : ¬(t = d) := fun h => hdt (Eq.symm h)
      have herase : (u ++ t :: v).erase d = (u ++ [t]) ++ v.erase d := by
        rw [List.erase_append_right _ hdu, List.erase_cons_tail (by simp [htd])]
        simp
      rw [herase] at g11
      rw [g3, if_neg hheadne] at g11
      rw [isChain_eq_seg] at g11
      rw [isChainSeg_append] at g11
      obtain ⟨r2, hA, hB⟩ := g11
      rw [isChainSeg_snoc] at hA
      obtain ⟨hA1, hr2⟩ := hA
      have ht2 : s2.conns t = sMid2.conns t := by
        apply g8 t (fun h => hdt h.symm)
        show (s.conns t).next ≠ some d
        cases v with
        | nil => exact absurd hdvm (by simp)
        | cons v0 vr =>
          have hv0 : (s.conns t).next = some v0 := ((isChain_cons s _ v0 vr).mp hchv).1
          rw [hv0]
          intro h
          rw [Option.some.injEq] at h
          exact hdv (by simp [h])
      have hr2b : (s2.conns t).next = (s.conns t).next := by
        rw [ht2]
      rw [hr2, hr2b] at hB
      rw [isChain_eq_seg]
      exact hB
  have hRlen : R.length ≤ f3 := by
    have hle : R.length ≤ v.length := by
      by_cases hcase : d ∈ u ∨ d = t
      · rw [hR, if_pos hcase]
      · rw [hR, if_neg hcase]
        exact (List.erase_sublist d v).length_le
    omega
  have hRE : R.isEmpty = v.isEmpty := by
    by_cases hcase : d ∈ u ∨ d = t
    · rw [hR, if_pos hcase]
    · rw [hR, if_neg hcase]
      have hdvm : d ∈ v := hdval hcase
      cases v with
      | nil => exact absurd hdvm (by simp)
      | cons v0 vr =>
        have hv0 : ¬(v0 = d) := fun h => hdv (by simp [h])
        rw [List.erase_cons_tail (by simp [hv0])]
        rfl
  have hmovt : ((s.conns t).next).isNone = v.isEmpty := by
    cases v with
    | nil =>
      have : (s.conns t).next = none := by
        simpa [Option.isNone_iff_eq_none] using hchv
      simp [this]
    | cons v0 vr =>
      rw [((isChain_cons s _ v0 vr).mp hchv).1]
      rfl
  have hδR : ∀ c ∈ R, ∀ st : State A, δ c st = st := by
    intro c hc st
    have hcv := hRsub c hc
    have hct : ¬(c = t) := fun h => htnv (h ▸ hcv)
    simp [hδdef, hct]
  rw [emitLoop_pure δ a R f3 ((s.conns t).next) s2 hchR hRlen hδR]
  have hlist : (if d ∈ u ∨ d = t then u ++ t :: v else (u ++ t :: v).erase d)
      = u ++ t :: R := by
    by_cases hcase : d ∈ u ∨ d = t
    · rw [if_pos hcase, hR, if_pos hcase]
    · rw [if_neg hcase, hR, if_neg hcase]
      have hdu : d ∉ u := fun h => hcase (Or.inl h)
      have hdt : ¬(d = t) := fun h => hcase (Or.inr h)
      have htd : ¬(t = d) := fun h => hdt (Eq.symm h)
      rw [List.erase_append_right _ hdu, List.erase_cons_tail (by simp [htd])]
  rw [hlist, walkEvents_append _ a u (t :: R) (by simp)]
  have hwR : walkEvents (fun c => (s2.conns c).blocked) a R
      = walkEvents (fun _ => false) a R :=
    walkEvents_congr a fun c hc => hblock2 c (hRsub c hc)
  have hMc : M = walkEventsMid (fun _ => false) a u :=
    walkEventsMid_congr a fun c hc => hcb c (by simp [hc])
  have htr2 : s2.trace = (s.trace ++ M) ++ [⟨t, a, ((s.conns t).next).isNone⟩] := by
    rw [g4, hsMid2]
  simp only [hwR, htr2, hmovt, hRE, hMc, walkEvents, if_neg (by simp : ¬(false = true)),
    List.append_assoc, List.singleton_append]

/-! ### Batch registration and the frame property of a passive emission -/

theorem connectAll_char {A : Type} (sid : Nat) :
    ∀ (cs : List Nat) (s : State A) (l0 : List Nat),
      isChain s ((s.sigs sid).connections) l0 = true →
      cs.Nodup → (∀ c ∈ cs, c ∉ l0) →
      isChain (connectAll sid cs s) (((connectAll sid cs s).sigs sid).connections)
          (cs.reverse ++ l0) = true
      ∧ (∀ c ∈ cs, ((connectAll sid cs s).conns c).blocked = false)
      ∧ (∀ c ∈ l0, ((connectAll sid cs s).conns c).blocked = (s.conns c).blocked)
      ∧ ((connectAll sid cs s).sigs sid).blocked = (s.sigs sid).blocked
      ∧ (connectAll sid cs s).trace = s.trace := by
  intro cs
  induction cs with
  | nil =>
    intro s l0 hch _ _
    exact ⟨by simpa using hch, by simp, fun c _ => rfl, rfl, rfl⟩
  | cons c cs ih =>
    intro s l0 hch hnd hni
    have hcnl0 : c ∉ l0 := hni c (by simp)
    have hcncs : c ∉ cs := (List.nodup_cons.mp hnd).1
    obtain ⟨k1, k2, k3, k4, k5⟩ := create_char sid c s
    have hch1 : isChain (Connection.create sid c s)
        (((Connection.create sid c s).sigs sid).connections) (c :: l0) = true := by
      rw [k1 sid, if_pos rfl]
      rw [isChain_cons]
      refine ⟨rfl, ?_⟩
      rw [k2 c, if_pos rfl]
      show isChain (Connection.create sid c s) ((s.sigs sid).connections) l0 = true
      refine (isChain_frame s (Connection.create sid c s) l0 ?_ _).trans hch
      intro x hx
      rw [k2 x, if_neg (fun h : x = c => hcnl0 (h ▸ hx))]
    have hni1 : ∀ x ∈ cs, x ∉ c :: l0 := by
      intro x hx
      simp only [List.mem_cons, not_or]
      exact ⟨fun h => hcncs (h ▸ hx), fun h => hni x (by simp [hx]) h⟩
    obtain ⟨j1, j2, j3, j4, j5⟩ :=
      ih (Connection.create sid c s) (c :: l0) hch1 (List.nodup_cons.mp hnd).2 hni1
    have hstep : connectAll sid (c :: cs) s = connectAll sid cs (Connection.create sid c s) :=
      rfl
    rw [hstep]
    refine ⟨?_, ?_, ?_, ?_, ?_⟩
    · have : cs.reverse ++ (c :: l0) = (c :: cs).reverse ++ l0 := by simp
      rw [← this]
      exact j1
    · intro x hx
      rcases List.mem_cons.mp hx with rfl | hx2
      · rw [j3 x (by simp)]
        rw [k2 x, if_pos rfl]
      · exact j2 x hx2
    · intro x hx
      rw [j3 x (by simp [hx])]
      rw [k2 x, if_neg (fun h : x = c => hcnl0 (h ▸ hx))]
    · rw [j4, k1 sid, if_pos rfl]
    · rw [j5, k3]

theorem emitLoop_pureDelegate_frame {A : Type} (a : A) :
    ∀ (fuel : Nat) (p : Option Nat) (s : State A),
      (emitLoop pureDelegate a fuel p s).sigs = s.sigs
      ∧ (emitLoop pureDelegate a fuel p s).conns = s.conns
      ∧ (emitLoop pureDelegate a fuel p s).connLive = s.connLive
      ∧ (emitLoop pureDelegate a fuel p s).delegateLive = s.delegateLive := by
  intro fuel
  induction fuel with
  | zero => intro p s; cases p <;> exact ⟨rfl, rfl, rfl, rfl⟩
  | succ fuel ih =>
    intro p s
    cases p with
    | none => exact ⟨rfl, rfl, rfl, rfl⟩
    | some c =>
      rw [emitLoop_step]
      obtain ⟨i1, i2, i3, i4⟩ :=
        ih ((s.conns c).next) (Connection.call pureDelegate c a ((s.conns c).next).isNone s)
      have hcf : (Connection.call pureDelegate c a ((s.conns c).next).isNone s).sigs = s.sigs
          ∧ (Connection.call pureDelegate c a ((s.conns c).next).isNone s).conns = s.conns
          ∧ (Connection.call pureDelegate c a ((s.conns c).next).isNone s).connLive
              = s.connLive
          ∧ (Connection.call pureDelegate c a ((s.conns c).next).isNone s).delegateLive
              = s.delegateLive := by
        rw [Connection.call]
        by_cases hb : (s.conns c).blocked
        · rw [if_pos hb]
          exact ⟨rfl, rfl, rfl, rfl⟩
        · rw [if_neg hb]
          exact ⟨rfl, rfl, rfl, rfl⟩
      exact ⟨i1.trans hcf.1, i2.trans hcf.2.1, i3.trans hcf.2.2.1, i4.trans hcf.2.2.2⟩

theorem emit_pureDelegate_frame {A : Type} (sid : Nat) (a : A) (fuel : Nat) (s : State A) :
    (Signal.emit pureDelegate sid a fuel s).sigs = s.sigs
    ∧ (Signal.emit pureDelegate sid a fuel s).conns = s.conns
    ∧ (Signal.emit pureDelegate sid a fuel s).connLive = s.connLive
    ∧ (Signal.emit pureDelegate sid a fuel s).delegateLive = s.delegateLive := by
  rw [Signal.emit]
  by_cases hb : (s.sigs sid).blocked
  · rw [if_pos hb]
    exact ⟨rfl, rfl, rfl, rfl⟩
  · rw [if_neg hb]
    exact emitLoop_pureDelegate_frame a fuel _ s

/-! ### Preservation of the structural invariant by the public operations -/

@[simp]
theorem updL_same (L : Nat → List Nat) (sid : Nat) (l : List Nat) :
    updL L sid l sid = l := by
  simp [updL]

theorem updL_other (L : Nat → List Nat) (sid : Nat) (l : List Nat) {j : Nat}
    (h : j ≠ sid) : updL L sid l j = L j := by
  simp [updL, h]

theorem WF_of_frame {A : Type} {s s' : State A} {Ds Dc : List Nat} {L : Nat → List Nat}
    (hwf : WF s Ds Dc L)
    (hsig : ∀ sid ∈ Ds, (s'.sigs sid).connections = (s.sigs sid).connections)
    (hconn : ∀ c, (s'.conns c).signal = (s.conns c).signal
        ∧ (s'.conns c).next = (s.conns c).next) :
    WF s' Ds Dc L := by
  obtain ⟨hws, hwc⟩ := hwf
  constructor
  · intro sid hsid
    obtain ⟨w1, w2, w3⟩ := hws sid hsid
    refine ⟨?_, w2, ?_⟩
    · rw [hsig sid hsid]
      exact (isChain_frame s s' (L sid) (fun x _ => (hconn x).2) _).trans w1
    · intro x hx
      rw [(hconn x).1]
      exact w3 x hx
  · intro c hc
    obtain ⟨w1, w2⟩ := hwc c hc
    rw [(hconn c).1, (hconn c).2]
    exact ⟨w1, w2⟩

theorem WF_signal_block {A : Type} {s : State A} {Ds Dc : List Nat} {L : Nat → List Nat}
    (hwf : WF s Ds Dc L) (sid : Nat) : WF (Signal.block sid s) Ds Dc L := by
  refine WF_of_frame hwf (fun j _ => ?_) (fun c => ⟨rfl, rfl⟩)
  rw [Signal.block]
  by_cases hj : j = sid <;> simp [setSig, hj]

theorem WF_signal_unblock {A : Type} {s : State A} {Ds Dc : List Nat} {L : Nat → List Nat}
    (hwf : WF s Ds Dc L) (sid : Nat) : WF (Signal.unblock sid s) Ds Dc L := by
  refine WF_of_frame hwf (fun j _ => ?_) (fun c => ⟨rfl, rfl⟩)
  rw [Signal.unblock]
  by_cases hj : j = sid <;> simp [setSig, hj]

theorem WF_conn_block {A : Type} {s : State A} {Ds Dc : List Nat} {L : Nat → List Nat}
    (hwf : WF s Ds Dc L) (c : Nat) : WF (Connection.block c s) Ds Dc L := by
  refine WF_of_frame hwf (fun j _ => rfl) (fun x => ?_)
  rw [Connection.block]
  by_cases hx : x = c <;> simp [setConn, hx]

theorem WF_conn_unblock {A : Type} {s : State A} {Ds Dc : List Nat} {L : Nat → List Nat}
    (hwf : WF s Ds Dc L) (c : Nat) : WF (Connection.unblock c s) Ds Dc L := by
  refine WF_of_frame hwf (fun j _ => rfl) (fun x => ?_)
  rw [Connection.unblock]
  by_cases hx : x = c <;> simp [setConn, hx]

theorem WF_emit {A : Type} {s : State A} {Ds Dc : List Nat} {L : Nat → List Nat}
    (hwf : WF s Ds Dc L) (sid : Nat) (a : A) (fuel : Nat) :
    WF (Signal.emit pureDelegate sid a fuel s) Ds Dc L := by
  obtain ⟨e1, e2, _, _⟩ := emit_pureDelegate_frame sid a fuel s
  refine WF_of_frame hwf (fun j _ => by rw [e1]) (fun c => by rw [e2]; exact ⟨rfl, rfl⟩)

theorem WF_connect {A : Type} {s : State A} {Ds Dc : List Nat} {L : Nat → List Nat}
    (hwf : WF s Ds Dc L) {sid c : Nat} (hsid : sid ∈ Ds) (hc : c ∈ Dc)
    (hnone : (s.conns c).signal = none) :
    WF (Signal.connect sid c s) Ds Dc (updL L sid (c :: L sid)) := by
  obtain ⟨hws, hwc⟩ := hwf
  obtain ⟨q1, q2, _, _, _⟩ := connect_char sid c s
  have hcnot : ∀ j ∈ Ds, c ∉ L j := by
    intro j hj hmem
    have h2 := ((hws j hj).2.2 c hmem).2
    rw [hnone] at h2
    exact Option.noConfusion h2
  constructor
  · intro j hj
    by_cases hjs : j = sid
    · subst hjs
      rw [updL_same]
      refine ⟨?_, ?_, ?_⟩
      · have hhead : ((Signal.connect j c s).sigs j).connections = some c := by
          rw [q1 j, if_pos rfl]
        rw [hhead, isChain_cons]
        refine ⟨rfl, ?_⟩
        have hnextc : ((Signal.connect j c s).conns c).next = (s.sigs j).connections := by
          rw [q2 c, if_pos rfl]
        rw [hnextc]
        refine (isChain_frame s (Signal.connect j c s) (L j) ?_ _).trans (hws j hj).1
        intro x hx
        rw [q2 x, if_neg (fun h : x = c => hcnot j hj (h ▸ hx))]
      · exact List.nodup_cons.mpr ⟨hcnot j hj, (hws j hj).2.1⟩
      · intro x hx
        rcases List.mem_cons.mp hx with rfl | hx2
        · refine ⟨hc, ?_⟩
          rw [q2 x, if_pos rfl]
        · have hxne : x ≠ c := fun h => hcnot j hj (h ▸ hx2)
          obtain ⟨m1, m2⟩ := (hws j hj).2.2 x hx2
          refine ⟨m1, ?_⟩
          rw [q2 x, if_neg hxne]
          exact m2
    · rw [updL_other L sid _ hjs]
      obtain ⟨w1, w2, w3⟩ := hws j hj
      refine ⟨?_, w2, ?_⟩
      · have hhead : ((Signal.connect sid c s).sigs j).connections
            = (s.sigs j).connections := by
          rw [q1 j, if_neg hjs]
        rw [hhead]
        refine (isChain_frame s (Signal.connect sid c s) (L j) ?_ _).trans w1
        intro x hx
        rw [q2 x, if_neg (fun h : x = c => hcnot j hj (h ▸ hx))]
      · intro x hx
        have hxne : x ≠ c := fun h => hcnot j hj (h ▸ hx)
        obtain ⟨m1, m2⟩ := w3 x hx
        refine ⟨m1, ?_⟩
        rw [q2 x, if_neg hxne]
        exact m2
  · intro x hx
    by_cases hxc : x = c
    · subst hxc
      constructor
      · intro hnone2
        rw [q2 x, if_pos rfl] at hnone2
        simp at hnone2
      · intro sid2 hsig2
        rw [q2 x, if_pos rfl] at hsig2
        simp at hsig2
        refine ⟨hsig2 ▸ hsid, ?_⟩
        rw [← hsig2, updL_same]
        simp
    · obtain ⟨w1, w2⟩ := hwc x hx
      constructor
      · intro hnone2
        rw [q2 x, if_neg hxc] at hnone2
        have := w1 hnone2
        rw [q2 x, if_neg hxc]
        exact this
      · intro sid2 hsig2
        rw [q2 x, if_neg hxc] at hsig2
        obtain ⟨m1, m2⟩ := w2 sid2 hsig2
        refine ⟨m1, ?_⟩
        by_cases hs2 : sid2 = sid
        · subst hs2
          rw [updL_same]
          exact List.mem_cons_of_mem _ m2
        · rw [updL_other L sid _ hs2]
          exact m2

theorem WF_create {A : Type} {s : State A} {Ds Dc : List Nat} {L : Nat → List Nat}
    (hwf : WF s Ds Dc L) {sid c : Nat} (hsid : sid ∈ Ds)
    (hfresh : ∀ j ∈ Ds, c ∉ L j) :
    WF (Connection.create sid c s) Ds (c :: Dc) (updL L sid (c :: L sid)) := by
  obtain ⟨hws, hwc⟩ := hwf
  obtain ⟨k1, k2, _, _, _⟩ := create_char sid c s
  constructor
  · intro j hj
    by_cases hjs : j = sid
    · subst hjs
      rw [updL_same]
      refine ⟨?_, ?_, ?_⟩
      · have hhead : ((Connection.create j c s).sigs j).connections = some c := by
          rw [k1 j, if_pos rfl]
        rw [hhead, isChain_cons]
        refine ⟨rfl, ?_⟩
        have hnextc : ((Connection.create j c s).conns c).next = (s.sigs j).connections := by
          rw [k2 c, if_pos rfl]
        rw [hnextc]
        refine (isChain_frame s (Connection.create j c s) (L j) ?_ _).trans (hws j hj).1
        intro x hx
        rw [k2 x, if_neg (fun h : x = c => hfresh j hj (h ▸ hx))]
      · exact List.nodup_cons.mpr ⟨hfresh j hj, (hws j hj).2.1⟩
      · intro x hx
        rcases List.mem_cons.mp hx with rfl | hx2
        · refine ⟨by simp, ?_⟩
          rw [k2 x, if_pos rfl]
        · have hxne : x ≠ c := fun h => hfresh j hj (h ▸ hx2)
          obtain ⟨m1, m2⟩ := (hws j hj).2.2 x hx2
          refine ⟨by simp [m1], ?_⟩
          rw [k2 x, if_neg hxne]
          exact m2
    · rw [updL_other L sid _ hjs]
      obtain ⟨w1, w2, w3⟩ := hws j hj
      refine ⟨?_, w2, ?_⟩
      · have hhead : ((Connection.create sid c s).sigs j).connections
            = (s.sigs j).connections := by
          rw [k1 j, if_neg hjs]
        rw [hhead]
        refine (isChain_frame s (Connection.create sid c s) (L j) ?_ _).trans w1
        intro x hx
        rw [k2 x, if_neg (fun h : x = c => hfresh j hj (h ▸ hx))]
      · intro x hx
        have hxne : x ≠ c := fun h => hfresh j hj (h ▸ hx)
        obtain ⟨m1, m2⟩ := w3 x hx
        refine ⟨by simp [m1], ?_⟩
        rw [k2 x, if_neg hxne]
        exact m2
  · intro x hx
    by_cases hxc : x = c
    · subst hxc
      constructor
      · intro hnone2
        rw [k2 x, if_pos rfl] at hnone2
        simp at hnone2
      · intro sid2 hsig2
        rw [k2 x, if_pos rfl] at hsig2
        simp at hsig2
        refine ⟨hsig2 ▸ hsid, ?_⟩
        rw [← hsig2, updL_same]
        simp
    · have hx2 : x ∈ Dc := by
        rcases List.mem_cons.mp hx with h | h
        · exact absurd h hxc
        · exact h
      obtain ⟨w1, w2⟩ := hwc x hx2
      constructor
      · intro hnone2
        rw [k2 x, if_neg hxc] at hnone2
        have := w1 hnone2
        rw [k2 x, if_neg hxc]
        exact this
      · intro sid2 hsig2
        rw [k2 x, if_neg hxc] at hsig2
        obtain ⟨m1, m2⟩ := w2 sid2 hsig2
        refine ⟨m1, ?_⟩
        by_cases hs2 : sid2 = sid
        · subst hs2
          rw [updL_same]
          exact List.mem_cons_of_mem _ m2
        · rw [updL_other L sid _ hs2]
          exact m2

theorem WF_congr_L {A : Type} {s : State A} {Ds Dc : List Nat} {L1 L2 : Nat → List Nat}
    (hwf : WF s Ds Dc L1) (h : ∀ j ∈ Ds, L1 j = L2 j) : WF s Ds Dc L2 := by
  obtain ⟨hws, hwc⟩ := hwf
  constructor
  · intro j hj
    rw [← h j hj]
    exact hws j hj
  · intro x hx
    obtain ⟨v1, v2⟩ := hwc x hx
    refine ⟨v1, ?_⟩
    intro sid2 hsig2
    obtain ⟨m1, m2⟩ := v2 sid2 hsig2
    rw [← h sid2 m1]
    exact ⟨m1, m2⟩

theorem WF_disconnect {A : Type} {s : State A} {Ds Dc : List Nat} {L : Nat → List Nat}
    (hwf : WF s Ds Dc L) {sid c : Nat} {fuel : Nat} (hsid : sid ∈ Ds)
    (hfuel : (L sid).length ≤ fuel) :
    WF (Signal.disconnect sid c fuel s) Ds Dc (updL L sid ((L sid).erase c)) := by
  obtain ⟨hws, hwc⟩ := hwf
  obtain ⟨w1, w2, w3⟩ := hws sid hsid
  by_cases hmem : c ∈ L sid
  · obtain ⟨g1, _, _, _, _, _, g7, g8, _, g10, g11⟩ := disconnect_mem w1 w2 hmem hfuel
    have hcsig : (s.conns c).signal = some sid := (w3 c hmem).2
    have hcnotother : ∀ j ∈ Ds, j ≠ sid → c ∉ L j := by
      intro j hj hjs hmem2
      have h2 := ((hws j hj).2.2 c hmem2).2
      rw [hcsig] at h2
      rw [Option.some.injEq] at h2
      exact hjs h2.symm
    have hfr_other : ∀ j ∈ Ds, j ≠ sid → ∀ x ∈ L j,
        (Signal.disconnect sid c fuel s).conns x = s.conns x := by
      intro j hj hjs x hx
      have hx1 : x ≠ c := fun h => hcnotother j hj hjs (h ▸ hx)
      have hx2 : (s.conns x).next ≠ some c := by
        rcases isChain_next_mem (hws j hj).1 x hx with h | ⟨y, hy, hnext⟩
        · simp [h]
        · rw [hnext]
          intro hcy
          rw [Option.some.injEq] at hcy
          exact hcnotother j hj hjs (hcy ▸ hy)
      exact g8 x hx1 hx2
    constructor
    · intro j hj
      by_cases hjs : j = sid
      · subst hjs
        rw [updL_same]
        refine ⟨g11, w2.erase c, ?_⟩
        intro x hx
        have hx0 : x ∈ L j := List.mem_of_mem_erase hx
        have hxc : x ≠ c := (w2.mem_erase_iff.mp hx).1
        obtain ⟨m1, m2⟩ := w3 x hx0
        refine ⟨m1, ?_⟩
        rw [g10 x hxc]
        exact m2
      · rw [updL_other L sid _ hjs]
        obtain ⟨v1, v2, v3⟩ := hws j hj
        refine ⟨?_, v2, ?_⟩
        · rw [g1 j hjs]
          refine (isChain_frame s _ (L j) ?_ _).trans v1
          intro x hx
          rw [hfr_other j hj hjs x hx]
        · intro x hx
          obtain ⟨m1, m2⟩ := v3 x hx
          refine ⟨m1, ?_⟩
          rw [hfr_other j hj hjs x hx]
          exact m2
    · intro x hx
      by_cases hxc : x = c
      · subst hxc
        constructor
        · intro _
          rw [g7]
        · intro sid2 hsig2
          rw [g7] at hsig2
          simp at hsig2
      · obtain ⟨v1, v2⟩ := hwc x hx
        by_cases hxnext : (s.conns x).next = some c
        · have hsg := g10 x hxc
          constructor
          · intro hnone2
            rw [hsg] at hnone2
            have h2 := v1 hnone2
            rw [hxnext] at h2
            exact Option.noConfusion h2
          · intro sid2 hsig2
            rw [hsg] at hsig2
            obtain ⟨m1, m2⟩ := v2 sid2 hsig2
            refine ⟨m1, ?_⟩
            by_cases hs2 : sid2 = sid
            · subst hs2
              rw [updL_same]
              exact (List.mem_erase_of_ne hxc).mpr m2
            · rw [updL_other L sid _ hs2]
              exact m2
        · have hcf := g8 x hxc hxnext
          constructor
          · intro hnone2
            rw [hcf] at hnone2
            rw [hcf]
            exact v1 hnone2
          · intro sid2 hsig2
            rw [hcf] at hsig2
            obtain ⟨m1, m2⟩ := v2 sid2 hsig2
            refine ⟨m1, ?_⟩
            by_cases hs2 : sid2 = sid
            · subst hs2
              rw [updL_same]
              exact (List.mem_erase_of_ne hxc).mpr m2
            · rw [updL_other L sid _ hs2]
              exact m2
  · have heq : Signal.disconnect sid c fuel s = s := disconnect_not_mem w1 hmem hfuel
    rw [heq]
    have herase : (L sid).erase c = L sid := List.erase_of_not_mem hmem
    refine WF_congr_L ⟨hws, hwc⟩ ?_
    intro j hj
    by_cases hjs : j = sid
    · subst hjs
      rw [updL_same, herase]
    · rw [updL_other L sid _ hjs]

theorem WF_destruct {A : Type} {s : State A} {Ds Dc : List Nat} {L : Nat → List Nat}
    (hwf : WF s Ds Dc L) {sid : Nat} {fuel : Nat} (hsid : sid ∈ Ds)
    (hfuel : (L sid).length ≤ fuel) :
    WF (Signal.destruct sid fuel s) Ds Dc (updL L sid []) := by
  obtain ⟨hws, hwc⟩ := hwf
  obtain ⟨w1, w2, w3⟩ := hws sid hsid
  obtain ⟨d1, _, d3, d4, d5, _, _, _⟩ := destructLoop_char sid (L sid) fuel s w1 w2 hfuel
  have hnotother : ∀ j ∈ Ds, j ≠ sid → ∀ x ∈ L j, x ∉ L sid := by
    intro j hj hjs x hx hx2
    have h1 := ((hws j hj).2.2 x hx).2
    have h2 := (w3 x hx2).2
    rw [h1] at h2
    rw [Option.some.injEq] at h2
    exact hjs h2
  show WF (destructLoop sid fuel ((s.sigs sid).connections) s) Ds Dc (updL L sid [])
  constructor
  · intro j hj
    by_cases hjs : j = sid
    · subst hjs
      rw [updL_same]
      refine ⟨?_, List.nodup_nil, by simp⟩
      rw [d1]
      rfl
    · rw [updL_other L sid _ hjs]
      obtain ⟨v1, v2, v3⟩ := hws j hj
      refine ⟨?_, v2, ?_⟩
      · rw [d3 j hjs]
        refine (isChain_frame s _ (L j) ?_ _).trans v1
        intro x hx
        rw [d5 x (hnotother j hj hjs x hx)]
      · intro x hx
        obtain ⟨m1, m2⟩ := v3 x hx
        refine ⟨m1, ?_⟩
        rw [d5 x (hnotother j hj hjs x hx)]
        exact m2
  · intro x hx
    by_cases hxl : x ∈ L sid
    · constructor
      · intro _
        rw [d4 x hxl]
      · intro sid2 hsig2
        rw [d4 x hxl] at hsig2
        simp at hsig2
    · obtain ⟨v1, v2⟩ := hwc x hx
      constructor
      · intro hnone2
        rw [d5 x hxl] at hnone2
        rw [d5 x hxl]
        exact v1 hnone2
      · intro sid2 hsig2
        rw [d5 x hxl] at hsig2
        obtain ⟨m1, m2⟩ := v2 sid2 hsig2
        refine ⟨m1, ?_⟩
        by_cases hs2 : sid2 = sid
        · subst hs2
          exact absurd m2 hxl
        · rw [updL_other L sid _ hs2]
          exact m2

theorem WF_conn_destruct {A : Type} {s : State A} {Ds Dc : List Nat} {L : Nat → List Nat}
    (hwf : WF s Ds Dc L) {c : Nat} {fuel : Nat} (hc : c ∈ Dc)
    (hfuel : ∀ j ∈ Ds, (L j).length ≤ fuel) :
    WF (Connection.destruct c fuel s) Ds Dc (fun j => (L j).erase c) := by
  cases hsig : (s.conns c).signal with
  | none =>
    have hcnot : ∀ j ∈ Ds, c ∉ L j := by
      intro j hj hmem
      have h2 := ((hwf.1 j hj).2.2 c hmem).2
      rw [hsig] at h2
      exact Option.noConfusion h2
    have hinner : WF s Ds Dc (fun j => (L j).erase c) :=
      WF_congr_L hwf fun j hj => (List.erase_of_not_mem (hcnot j hj)).symm
    simp only [Connection.destruct, hsig]
    exact WF_of_frame hinner (fun j _ => rfl) (fun x => ⟨rfl, rfl⟩)
  | some sid =>
    have hmm := (hwf.2 c hc).2 sid hsig
    have hinner0 : WF (Signal.disconnect sid c fuel s) Ds Dc
        (updL L sid ((L sid).erase c)) :=
      WF_disconnect hwf hmm.1 (hfuel sid hmm.1)
    have hcnotother : ∀ j ∈ Ds, j ≠ sid → c ∉ L j := by
      intro j hj hjs hmem2
      have h2 := ((hwf.1 j hj).2.2 c hmem2).2
      rw [hsig] at h2
      rw [Option.some.injEq] at h2
      exact hjs h2.symm
    have hinner : WF (Signal.disconnect sid c fuel s) Ds Dc (fun j => (L j).erase c) := by
      refine WF_congr_L hinner0 ?_
      intro j hj
      by_cases hjs : j = sid
      · subst hjs
        rw [updL_same]
      · rw [updL_other L sid _ hjs]
        rw [List.erase_of_not_mem (hcnotother j hj hjs)]
    simp only [Connection.destruct, hsig]
    exact WF_of_frame hinner (fun j _ => rfl) (fun x => ⟨rfl, rfl⟩)

/-! ### The claims -/

/-- C1: for every signal and every sequence of N Connection constructions
registering connections c1..cN to it, starting from an empty, unblocked
signal, a single emission with passive delegates invokes each connection's
delegate exactly once, in exactly reverse-of-registration order (cN first,
c1 last): the appended events list exactly the reversed registration
sequence. -/
theorem claim_C1_lifo_order {A : Type} (sid : Nat) (cs : List Nat) (a : A)
    (s : State A) (fuel : Nat)
    (hempty : (s.sigs sid).connections = none)
    (hnb : (s.sigs sid).blocked = false) (hnd : cs.Nodup)
    (hfuel : cs.length ≤ fuel) :
    (Signal.emit pureDelegate sid a fuel (connectAll sid cs s)).trace
      = (connectAll sid cs s).trace ++ walkEvents (fun _ => false) a cs.reverse
    ∧ (walkEvents (fun _ => false) a cs.reverse).map Ev.conn = cs.reverse := by
  obtain ⟨j1, j2, _, j4, _⟩ :=
    connectAll_char sid cs s [] (by simp [hempty]) hnd (by simp)
  rw [List.append_nil] at j1
  constructor
  · have hnb2 : ((connectAll sid cs s).sigs sid).blocked = false := j4.trans hnb
    rw [emit_pure pureDelegate sid a j1 (by simpa using hfuel) (fun c _ st => rfl) hnb2]
    have hw : walkEvents (fun c => ((connectAll sid cs s).conns c).blocked) a cs.reverse
        = walkEvents (fun _ => false) a cs.reverse :=
      walkEvents_congr a fun c hc => j2 c (by simpa using hc)
    simp [hw]
  · rw [walkEvents_map_conn]
    simp

/-- C1 witness: three connections 1, 2, 3 registered on signal 0 of the empty
state are notified in the order 3, 2, 1. -/
theorem claim_C1_witness :
    (Signal.emit pureDelegate 0 (5 : Nat) 3 (connectAll 0 [1, 2, 3] exEmpty)).trace
      = (connectAll 0 [1, 2, 3] exEmpty).trace
        ++ walkEvents (fun _ => false) (5 : Nat) ([1, 2, 3] : List Nat).reverse
    ∧ (walkEvents (fun _ => false) (5 : Nat) ([1, 2, 3] : List Nat).reverse).map Ev.conn
        = ([1, 2, 3] : List Nat).reverse :=
  claim_C1_lifo_order 0 [1, 2, 3] 5 exEmpty 3 (by decide) (by decide) (by decide) (by decide)

/-- C7: on a single emission every invoked delegate receives the same logical
argument value `a`, and an invocation consumes the arguments destructively
(the forward branch) exactly when its connection is the structurally last
node of the walk. -/
theorem claim_C7_move_only_last {A : Type} (sid : Nat) (a : A) (l : List Nat)
    (fuel : Nat) (s : State A)
    (hch : isChain s ((s.sigs sid).connections) l = true)
    (hnd : l.Nodup) (hfuel : l.length ≤ fuel)
    (hnb : (s.sigs sid).blocked = false) :
    (Signal.emit pureDelegate sid a fuel s).trace
      = s.trace ++ walkEvents (fun c => (s.conns c).blocked) a l
    ∧ (∀ e ∈ walkEvents (fun c => (s.conns c).blocked) a l, e.arg = a)
    ∧ (∀ e ∈ walkEvents (fun c => (s.conns c).blocked) a l,
        e.moved = decide (l.getLast? = some e.conn)) := by
  refine ⟨?_, ?_, ?_⟩
  · rw [emit_pure pureDelegate sid a hch hfuel (fun c _ st => rfl) hnb]
  · intro e he
    exact (walkEvents_mem he).1
  · intro e he
    exact walkEvents_moved hnd he

/-- C7 witness: in the concrete three-connection state the events carry the
emitted value 7 and only connection 0, the last node, is reached through the
forward branch. -/
theorem claim_C7_witness :
    (Signal.emit pureDelegate 0 (7 : Nat) 3 exState).trace
      = exState.trace ++ walkEvents (fun c => (exState.conns c).blocked) 7 [2, 1, 0]
    ∧ (∀ e ∈ walkEvents (fun c => (exState.conns c).blocked) (7 : Nat) [2, 1, 0], e.arg = 7)
    ∧ (∀ e ∈ walkEvents (fun c => (exState.conns c).blocked) (7 : Nat) [2, 1, 0],
        e.moved = decide (([2, 1, 0] : List Nat).getLast? = some e.conn)) :=
  claim_C7_move_only_last 0 7 [2, 1, 0] 3 exState (by decide) (by decide) (by decide)
    (by decide)

/-- C9: copy-constructing a Signal yields a Signal with an empty connection
list and the blocked flag copied from the source. -/
theorem claim_C9_copy_ctor {A : Type} (src dst : Nat) (s : State A) :
    ((Signal.copyCtor src dst s).sigs dst).connections = none
    ∧ ((Signal.copyCtor src dst s).sigs dst).blocked = (s.sigs src).blocked := by
  constructor <;> simp [Signal.copyCtor, setSig]

/-- C10: an emission whose delegates perform no operation leaves every signal
cell, every connection cell (head pointers, next-links, signal-references and
blocked flags) and the liveness of all objects unchanged, including when the
signal or individual connections are blocked. -/
theorem claim_C10_emission_readonly {A : Type} (sid : Nat) (a : A) (fuel : Nat)
    (s : State A) :
    (Signal.emit pureDelegate sid a fuel s).sigs = s.sigs
    ∧ (Signal.emit pureDelegate sid a fuel s).conns = s.conns
    ∧ (Signal.emit pureDelegate sid a fuel s).connLive = s.connLive
    ∧ (Signal.emit pureDelegate sid a fuel s).delegateLive = s.delegateLive :=
  emit_pureDelegate_frame sid a fuel s

/-- C2: if the signal's blocked flag is set an emission is a complete no-op;
otherwise exactly the registered connections whose own blocked flag is clear
are invoked.  Blocking one connection removes exactly that connection from
the invoked set, and unblocking it restores it on the next emission. -/
theorem claim_C2_blocking {A : Type} (sid : Nat) (a : A) (l : List Nat) (fuel : Nat)
    (s : State A)
    (hch : isChain s ((s.sigs sid).connections) l = true)
    (hfuel : l.length ≤ fuel) :
    ((s.sigs sid).blocked = true → Signal.emit pureDelegate sid a fuel s = s)
    ∧ ((s.sigs sid).blocked = false →
        (Signal.emit pureDelegate sid a fuel s).trace
          = s.trace ++ walkEvents (fun c => (s.conns c).blocked) a l
        ∧ (walkEvents (fun c => (s.conns c).blocked) a l).map Ev.conn
            = l.filter (fun c => !(s.conns c).blocked)
        ∧ (∀ b : Nat,
            (Signal.emit pureDelegate sid a fuel (Connection.block b s)).trace
              = s.trace ++ walkEvents
                  (fun x => ((Connection.block b s).conns x).blocked) a l
            ∧ (walkEvents (fun x => ((Connection.block b s).conns x).blocked) a l).map
                  Ev.conn
                = l.filter fun x => !(decide (x = b) || (s.conns x).blocked))
        ∧ ∀ b : Nat,
            (Signal.emit pureDelegate sid a fuel (Connection.unblock b s)).trace
              = s.trace ++ walkEvents
                  (fun x => ((Connection.unblock b s).conns x).blocked) a l
            ∧ (walkEvents (fun x => ((Connection.unblock b s).conns x).blocked) a l).map
                  Ev.conn
                = l.filter fun x => decide (x = b) || !(s.conns x).blocked) := by
  constructor
  · intro hb
    rw [Signal.emit, if_pos hb]
  · intro hnb
    refine ⟨?_, ?_, ?_, ?_⟩
    · rw [emit_pure pureDelegate sid a hch hfuel (fun c _ st => rfl) hnb]
    · rw [walkEvents_map_conn]
    · intro b
      have hchb : isChain (Connection.block b s)
          (((Connection.block b s).sigs sid).connections) l = true := by
        show isChain (Connection.block b s) ((s.sigs sid).connections) l = true
        refine (isChain_frame s (Connection.block b s) l ?_ _).trans hch
        intro x _
        rw [Connection.block]
        by_cases hx : x = b <;> simp [setConn, hx]
      have hnbb : ((Connection.block b s).sigs sid).blocked = false := hnb
      constructor
      · rw [emit_pure pureDelegate sid a hchb hfuel (fun c _ st => rfl) hnbb]
        rfl
      · rw [walkEvents_map_conn]
        refine List.filter_congr ?_
        intro x _
        rw [Connection.block]
        by_cases hx : x = b <;> simp [setConn, hx]
    · intro b
      have hchb : isChain (Connection.unblock b s)
          (((Connection.unblock b s).sigs sid).connections) l = true := by
        show isChain (Connection.unblock b s) ((s.sigs sid).connections) l = true
        refine (isChain_frame s (Connection.unblock b s) l ?_ _).trans hch
        intro x _
        rw [Connection.unblock]
        by_cases hx : x = b <;> simp [setConn, hx]
      have hnbb : ((Connection.unblock b s).sigs sid).blocked = false := hnb
      constructor
      · rw [emit_pure pureDelegate sid a hchb hfuel (fun c _ st => rfl) hnbb]
        rfl
      · rw [walkEvents_map_conn]
        refine List.filter_congr ?_
        intro x _
        rw [Connection.unblock]
        by_cases hx : x = b <;> simp [setConn, hx]

/-- C2 witness: the hypotheses hold in the concrete three-connection state. -/
theorem claim_C2_witness :
    ((exState.sigs 0).blocked = true → Signal.emit pureDelegate 0 (9 : Nat) 3 exState
        = exState)
    ∧ ((exState.sigs 0).blocked = false →
        (Signal.emit pureDelegate 0 (9 : Nat) 3 exState).trace
          = exState.trace ++ walkEvents (fun c => (exState.conns c).blocked) 9 [2, 1, 0]
        ∧ (walkEvents (fun c => (exState.conns c).blocked) (9 : Nat) [2, 1, 0]).map Ev.conn
            = [2, 1, 0].filter (fun c => !(exState.conns c).blocked)
        ∧ (∀ b : Nat,
            (Signal.emit pureDelegate 0 (9 : Nat) 3 (Connection.block b exState)).trace
              = exState.trace ++ walkEvents
                  (fun x => ((Connection.block b exState).conns x).blocked) 9 [2, 1, 0]
            ∧ (walkEvents (fun x => ((Connection.block b exState).conns x).blocked)
                  (9 : Nat) [2, 1, 0]).map Ev.conn
                = [2, 1, 0].filter fun x => !(decide (x = b) || (exState.conns x).blocked))
        ∧ ∀ b : Nat,
            (Signal.emit pureDelegate 0 (9 : Nat) 3 (Connection.unblock b exState)).trace
              = exState.trace ++ walkEvents
                  (fun x => ((Connection.unblock b exState).conns x).blocked) 9 [2, 1, 0]
            ∧ (walkEvents (fun x => ((Connection.unblock b exState).conns x).blocked)
                  (9 : Nat) [2, 1, 0]).map Ev.conn
                = [2, 1, 0].filter fun x => decide (x = b) || !(exState.conns x).blocked) :=
  claim_C2_blocking 0 9 [2, 1, 0] 3 exState (by decide) (by decide)

/-- C3: disconnecting a connection that is present removes exactly that
connection — the remaining list is the old list with it erased, in its prior
relative order, and a subsequent emission invokes exactly the remaining
non-blocked connections — and clears its next-link and signal-reference;
disconnecting a connection that is not in the list changes nothing at all. -/
theorem claim_C3_disconnect {A : Type} (sid conn : Nat) (fuel : Nat) (l : List Nat)
    (s : State A)
    (hch : isChain s ((s.sigs sid).connections) l = true)
    (hnd : l.Nodup) (hfuel : l.length ≤ fuel) :
    (conn ∈ l →
        isChain (Signal.disconnect sid conn fuel s)
            (((Signal.disconnect sid conn fuel s).sigs sid).connections)
            (l.erase conn) = true
        ∧ ((Signal.disconnect sid conn fuel s).conns conn).next = none
        ∧ ((Signal.disconnect sid conn fuel s).conns conn).signal = none
        ∧ ∀ (a : A) (fuel2 : Nat), l.length ≤ fuel2 → (s.sigs sid).blocked = false →
            (Signal.emit pureDelegate sid a fuel2 (Signal.disconnect sid conn fuel s)).trace
              = (Signal.disconnect sid conn fuel s).trace
                ++ walkEvents (fun c => (s.conns c).blocked) a (l.erase conn)
            ∧ (walkEvents (fun c => (s.conns c).blocked) a (l.erase conn)).map Ev.conn
                = (l.erase conn).filter fun c => !(s.conns c).blocked)
    ∧ (conn ∉ l → Signal.disconnect sid conn fuel s = s) := by
  constructor
  · intro hmem
    obtain ⟨_, g2, _, _, _, _, g7, _, g9, _, g11⟩ := disconnect_mem hch hnd hmem hfuel
    refine ⟨g11, ?_, ?_, ?_⟩
    · rw [g7]
    · rw [g7]
    · intro a fuel2 hfuel2 hnb
      have hnb2 : ((Signal.disconnect sid conn fuel s).sigs sid).blocked = false :=
        g2.trans hnb
      have hlen2 : (l.erase conn).length ≤ fuel2 :=
        le_trans (List.erase_sublist conn l).length_le hfuel2
      constructor
      · rw [emit_pure pureDelegate sid a g11 hlen2 (fun c _ st => rfl) hnb2]
        have hw : walkEvents
              (fun c => ((Signal.disconnect sid conn fuel s).conns c).blocked) a
              (l.erase conn)
            = walkEvents (fun c => (s.conns c).blocked) a (l.erase conn) :=
          walkEvents_congr a fun c _ => g9 c
        rw [← hw]
      · rw [walkEvents_map_conn]
  · intro hmem
    exact disconnect_not_mem hch hmem hfuel

/-- C3 witness: disconnecting connection 1 from the concrete list 2, 1, 0. -/
theorem claim_C3_witness :
    ((1 : Nat) ∈ ([2, 1, 0] : List Nat) →
        isChain (Signal.disconnect 0 1 3 exState)
            (((Signal.disconnect 0 1 3 exState).sigs 0).connections)
            (([2, 1, 0] : List Nat).erase 1) = true
        ∧ ((Signal.disconnect 0 1 3 exState).conns 1).next = none
        ∧ ((Signal.disconnect 0 1 3 exState).conns 1).signal = none
        ∧ ∀ (a : Nat) (fuel2 : Nat), ([2, 1, 0] : List Nat).length ≤ fuel2 →
            (exState.sigs 0).blocked = false →
            (Signal.emit pureDelegate 0 a fuel2 (Signal.disconnect 0 1 3 exState)).trace
              = (Signal.disconnect 0 1 3 exState).trace
                ++ walkEvents (fun c => (exState.conns c).blocked) a
                    (([2, 1, 0] : List Nat).erase 1)
            ∧ (walkEvents (fun c => (exState.conns c).blocked) a
                  (([2, 1, 0] : List Nat).erase 1)).map Ev.conn
                = (([2, 1, 0] : List Nat).erase 1).filter
                    fun c => !(exState.conns c).blocked)
    ∧ ((1 : Nat) ∉ ([2, 1, 0] : List Nat) → Signal.disconnect 0 1 3 exState = exState) :=
  claim_C3_disconnect 0 1 3 [2, 1, 0] exState (by decide) (by decide) (by decide)

/-- C4: destroying a Signal empties its list; every formerly registered
Connection afterwards reports connected() = false and has a null next-link;
the destructor invokes no delegate (the ghost trace is untouched) and
destroys neither the Connection objects nor their delegates (all liveness
flags are untouched). -/
theorem claim_C4_signal_destructor {A : Type} (sid : Nat) (fuel : Nat) (l : List Nat)
    (s : State A)
    (hch : isChain s ((s.sigs sid).connections) l = true)
    (hnd : l.Nodup) (hfuel : l.length ≤ fuel) :
    ((Signal.destruct sid fuel s).sigs sid).connections = none
    ∧ (∀ c ∈ l, Connection.connected c (Signal.destruct sid fuel s) = false
        ∧ ((Signal.destruct sid fuel s).conns c).next = none)
    ∧ (Signal.destruct sid fuel s).trace = s.trace
    ∧ (Signal.destruct sid fuel s).connLive = s.connLive
    ∧ (Signal.destruct sid fuel s).delegateLive = s.delegateLive := by
  obtain ⟨d1, _, _, d4, _, d6, d7, d8⟩ := destructLoop_char sid l fuel s hch hnd hfuel
  show ((destructLoop sid fuel ((s.sigs sid).connections) s).sigs sid).connections = none
    ∧ (∀ c ∈ l,
        Connection.connected c (destructLoop sid fuel ((s.sigs sid).connections) s) = false
        ∧ ((destructLoop sid fuel ((s.sigs sid).connections) s).conns c).next = none)
    ∧ (destructLoop sid fuel ((s.sigs sid).connections) s).trace = s.trace
    ∧ (destructLoop sid fuel ((s.sigs sid).connections) s).connLive = s.connLive
    ∧ (destructLoop sid fuel ((s.sigs sid).connections) s).delegateLive = s.delegateLive
  refine ⟨d1, ?_, d6, d7, d8⟩
  intro c hc
  constructor
  · rw [Connection.connected, d4 c hc]
    rfl
  · rw [d4 c hc]

/-- C4 witness: destroying signal 0 of the concrete state severs 2, 1 and 0. -/
theorem claim_C4_witness :
    ((Signal.destruct 0 3 exState).sigs 0).connections = none
    ∧ (∀ c ∈ ([2, 1, 0] : List Nat),
        Connection.connected c (Signal.destruct 0 3 exState) = false
        ∧ ((Signal.destruct 0 3 exState).conns c).next = none)
    ∧ (Signal.destruct 0 3 exState).trace = exState.trace
    ∧ (Signal.destruct 0 3 exState).connLive = exState.connLive
    ∧ (Signal.destruct 0 3 exState).delegateLive = exState.delegateLive :=
  claim_C4_signal_destructor 0 3 [2, 1, 0] exState (by decide) (by decide) (by decide)

/-- C5: destroying a registered Connection removes it from its Signal's list
(the list becomes the old one with it erased, so a subsequent emission does
not invoke it), releases its owned delegate, destroys the Connection object,
and leaves every other Signal's list, when that list did not contain it,
unchanged — so no entry for the Connection remains in any Signal's list. -/
theorem claim_C5_connection_destructor {A : Type} (c sid : Nat) (fuel : Nat)
    (l : List Nat) (s : State A)
    (hsig : (s.conns c).signal = some sid)
    (hch : isChain s ((s.sigs sid).connections) l = true)
    (hnd : l.Nodup) (hmem : c ∈ l) (hfuel : l.length ≤ fuel) :
    isChain (Connection.destruct c fuel s)
        (((Connection.destruct c fuel s).sigs sid).connections) (l.erase c) = true
    ∧ c ∉ l.erase c
    ∧ (Connection.destruct c fuel s).delegateLive c = false
    ∧ (Connection.destruct c fuel s).connLive c = false
    ∧ (∀ (a : A) (fuel2 : Nat), l.length ≤ fuel2 → (s.sigs sid).blocked = false →
        (Signal.emit pureDelegate sid a fuel2 (Connection.destruct c fuel s)).trace
          = (Connection.destruct c fuel s).trace
            ++ walkEvents (fun x => (s.conns x).blocked) a (l.erase c)
        ∧ c ∉ (walkEvents (fun x => (s.conns x).blocked) a (l.erase c)).map Ev.conn)
    ∧ (∀ sid2 l2, sid2 ≠ sid → isChain s ((s.sigs sid2).connections) l2 = true →
        c ∉ l2 →
        isChain (Connection.destruct c fuel s)
          (((Connection.destruct c fuel s).sigs sid2).connections) l2 = true) := by
  obtain ⟨g1, g2, _, _, _, _, g7, g8, g9, _, g11⟩ := disconnect_mem hch hnd hmem hfuel
  have hdc : Connection.destruct c fuel s
      = { Signal.disconnect sid c fuel s with
          delegateLive := fun i =>
            if i = c then false else (Signal.disconnect sid c fuel s).delegateLive i
          connLive := fun i =>
            if i = c then false else (Signal.disconnect sid c fuel s).connLive i } := by
    simp only [Connection.destruct, hsig]
  have hcerase : c ∉ l.erase c := fun h => (hnd.mem_erase_iff.mp h).1 rfl
  rw [hdc]
  refine ⟨?_, hcerase, by simp, by simp, ?_, ?_⟩
  · refine (isChain_frame (Signal.disconnect sid c fuel s) _ (l.erase c)
      (fun x _ => ?_) _).trans g11
    rfl
  · intro a fuel2 hfuel2 hnb
    have hch2 : isChain
        ({ Signal.disconnect sid c fuel s with
            delegateLive := fun i =>
              if i = c then false else (Signal.disconnect sid c fuel s).delegateLive i
            connLive := fun i =>
              if i = c then false else (Signal.disconnect sid c fuel s).connLive i } :
          State A)
        (((Signal.disconnect sid c fuel s).sigs sid).connections) (l.erase c) = true := by
      refine (isChain_frame (Signal.disconnect sid c fuel s) _ (l.erase c)
        (fun x _ => ?_) _).trans g11
      rfl
    have hnb2 : ((Signal.disconnect sid c fuel s).sigs sid).blocked = false :=
      g2.trans hnb
    have hlen2 : (l.erase c).length ≤ fuel2 :=
      le_trans (List.erase_sublist c l).length_le hfuel2
    constructor
    · rw [emit_pure pureDelegate sid a hch2 hlen2 (fun x _ st => rfl) hnb2]
      have hw : walkEvents
            (fun x => ((Signal.disconnect sid c fuel s).conns x).blocked) a (l.erase c)
          = walkEvents (fun x => (s.conns x).blocked) a (l.erase c) :=
        walkEvents_congr a fun x _ => g9 x
      show (Signal.disconnect sid c fuel s).trace
            ++ walkEvents
              (fun x => ((Signal.disconnect sid c fuel s).conns x).blocked) a (l.erase c)
          = _
      rw [hw]
    · rw [walkEvents_map_conn]
      intro hcmem
      exact hcerase (List.mem_of_mem_filter hcmem)
  · intro sid2 l2 hs2 hch2 hc2
    have hhead : ((Signal.disconnect sid c fuel s).sigs sid2) = s.sigs sid2 := g1 sid2 hs2
    show isChain _ (((Signal.disconnect sid c fuel s).sigs sid2).connections) l2 = true
    rw [hhead]
    refine (isChain_frame (Signal.disconnect sid c fuel s) _ l2 (fun x _ => ?_) _).trans
      ?_
    · rfl
    refine (isChain_frame s (Signal.disconnect sid c fuel s) l2 ?_ _).trans hch2
    intro x hx
    have hx1 : x ≠ c := fun h => hc2 (h ▸ hx)
    have hx2 : (s.conns x).next ≠ some c := by
      rcases isChain_next_mem hch2 x hx with h | ⟨y, hy, hnext⟩
      · simp [h]
      · rw [hnext]
        intro hcy
        rw [Option.some.injEq] at hcy
        exact hc2 (hcy ▸ hy)
    rw [g8 x hx1 hx2]

/-- C5 witness: destroying connection 1 in the concrete state. -/
theorem claim_C5_witness :
    isChain (Connection.destruct 1 3 exState)
        (((Connection.destruct 1 3 exState).sigs 0).connections)
        (([2, 1, 0] : List Nat).erase 1) = true
    ∧ (1 : Nat) ∉ ([2, 1, 0] : List Nat).erase 1
    ∧ (Connection.destruct 1 3 exState).delegateLive 1 = false
    ∧ (Connection.destruct 1 3 exState).connLive 1 = false
    ∧ (∀ (a : Nat) (fuel2 : Nat), ([2, 1, 0] : List Nat).length ≤ fuel2 →
        (exState.sigs 0).blocked = false →
        (Signal.emit pureDelegate 0 a fuel2 (Connection.destruct 1 3 exState)).trace
          = (Connection.destruct 1 3 exState).trace
            ++ walkEvents (fun x => (exState.conns x).blocked) a
                (([2, 1, 0] : List Nat).erase 1)
        ∧ (1 : Nat) ∉ (walkEvents (fun x => (exState.conns x).blocked) a
              (([2, 1, 0] : List Nat).erase 1)).map Ev.conn)
    ∧ (∀ sid2 l2, sid2 ≠ 0 → isChain exState ((exState.sigs sid2).connections) l2 = true →
        (1 : Nat) ∉ l2 →
        isChain (Connection.destruct 1 3 exState)
          (((Connection.destruct 1 3 exState).sigs sid2).connections) l2 = true) :=
  claim_C5_connection_destructor 1 0 3 [2, 1, 0] exState (by decide) (by decide)
    (by decide) (by decide) (by decide)

/-- C6 counterexample: the claim as stated is false on the code.  In the
concrete state, signal 0 holds the connections 2, 1, 0 (all unblocked, signal
unblocked) and during emission the delegate of connection 2 disconnects
connection 1, an "other connection".  The claim promises that the connections
after the disconnected one — here connection 0 — are still invoked exactly
once, but the dispatch pass invokes 2, then invokes the already-disconnected
1 through the forward branch (its captured next pointer was taken before the
disconnect, and its next-link was nulled by the disconnect), and then stops:
connection 0 is invoked zero times. -/
theorem claim_C6_counterexample :
    (Signal.emit exDelta 0 (42 : Nat) 5 exState).trace.map Ev.conn = [2, 1]
    ∧ (0 : Nat) ∉ (Signal.emit exDelta 0 (42 : Nat) 5 exState).trace.map Ev.conn
    ∧ isChain exState ((exState.sigs 0).connections) [2, 1, 0] = true
    ∧ (exState.sigs 0).blocked = false
    ∧ (∀ c ∈ ([2, 1, 0] : List Nat), (exState.conns c).blocked = false) := by
  decide

/-- C6 (amended): during a dispatch pass with the signal unblocked and no
connection blocked, the traversal captures the next pointer before invoking
the current entry's delegate, so a delegate (of connection `t`) that
disconnects its own connection or any other connection `d` other than the
one immediately following `t` does not corrupt the traversal: if `d` is `t`
itself or an already-visited connection the pass is unchanged — every
connection in the list is invoked exactly once, in order — and if `d` is a
not-yet-visited connection other than the immediate successor, exactly the
other connections are still invoked exactly once, in order.  (The original
claim, without the immediate-successor exclusion, is refuted by the
counterexample.) -/
theorem claim_C6_reentrant_disconnect {A : Type} (sid t d dfuel : Nat) (a : A)
    (u v : List Nat) (s : State A) (fuel : Nat)
    (hch : isChain s ((s.sigs sid).connections) (u ++ t :: v) = true)
    (hnd : (u ++ t :: v).Nodup)
    (hsb : (s.sigs sid).blocked = false)
    (hcb : ∀ c ∈ u ++ t :: v, (s.conns c).blocked = false)
    (hdm : d ∈ u ++ t :: v)
    (hdv : v.head? ≠ some d)
    (hdfuel : (u ++ t :: v).length ≤ dfuel)
    (hfuel : (u ++ t :: v).length ≤ fuel) :
    (Signal.emit (fun c st => if c = t then Signal.disconnect sid d dfuel st else st)
        sid a fuel s).trace
      = s.trace ++ walkEvents (fun _ => false) a
          (if d ∈ u ∨ d = t then u ++ t :: v else (u ++ t :: v).erase d)
    ∧ (walkEvents (fun _ => false) a
          (if d ∈ u ∨ d = t then u ++ t :: v else (u ++ t :: v).erase d)).map Ev.conn
        = (if d ∈ u ∨ d = t then u ++ t :: v else (u ++ t :: v).erase d) := by
  refine ⟨emit_reentrant_disc a hch hnd hsb hcb hdm hdv hdfuel hfuel, ?_⟩
  rw [walkEvents_map_conn]
  simp

/-- C6 witness: connection 2 disconnects itself (the head) during its own
invocation in the concrete state; the pass still invokes 2, 1, 0 in order. -/
theorem claim_C6_witness :
    (Signal.emit (fun c st => if c = 2 then Signal.disconnect 0 2 5 st else st)
        0 (42 : Nat) 5 exState).trace
      = exState.trace ++ walkEvents (fun _ => false) 42
          (if (2 : Nat) ∈ ([] : List Nat) ∨ (2 : Nat) = 2 then [] ++ 2 :: [1, 0]
           else (([] : List Nat) ++ 2 :: [1, 0]).erase 2)
    ∧ (walkEvents (fun _ => false) (42 : Nat)
          (if (2 : Nat) ∈ ([] : List Nat) ∨ (2 : Nat) = 2 then ([] : List Nat) ++ 2 :: [1, 0]
           else (([] : List Nat) ++ 2 :: [1, 0]).erase 2)).map Ev.conn
        = (if (2 : Nat) ∈ ([] : List Nat) ∨ (2 : Nat) = 2 then ([] : List Nat) ++ 2 :: [1, 0]
           else (([] : List Nat) ++ 2 :: [1, 0]).erase 2) :=
  claim_C6_reentrant_disconnect 0 2 2 5 42 [] [1, 0] exState 5 (by decide) (by decide)
    (by decide) (by decide) (by decide) (by decide) (by decide) (by decide)

theorem exState_WF : WF exState [0] [2, 1, 0] exL := by
  constructor
  · intro sid hsid
    have hs0 : sid = 0 := by simpa using hsid
    subst hs0
    refine ⟨by decide, by decide, ?_⟩
    intro c hc
    fin_cases hc <;> exact ⟨by decide, by decide⟩
  · intro c hc
    fin_cases hc <;>
      refine ⟨fun h => absurd h (by decide), ?_⟩ <;>
      · intro sid hsig
        simp [exState, exConns] at hsig
        subst hsig
        exact ⟨by decide, by decide⟩

/-- C8: the structural invariant — each live connection's signal-reference is
set to a signal iff the connection is in that signal's list, no connection is
in two lists at once (lists are disjoint), and an unregistered connection has
a cleared next-link — holds in every well-formed state and is preserved by
every public operation: connect of an unregistered connection, Connection
construction of a fresh connection, disconnect (found or not), emission with
passive delegates, both levels of block and unblock, Signal destruction and
Connection destruction. -/
theorem claim_C8_invariants {A : Type} (Ds Dc : List Nat) (L : Nat → List Nat)
    (s : State A) (hwf : WF s Ds Dc L) :
    (∀ c ∈ Dc, ∀ sid ∈ Ds, ((s.conns c).signal = some sid ↔ c ∈ L sid))
    ∧ (∀ sid1 ∈ Ds, ∀ sid2 ∈ Ds, ∀ c : Nat, c ∈ L sid1 → c ∈ L sid2 → sid1 = sid2)
    ∧ (∀ sid c, sid ∈ Ds → c ∈ Dc → (s.conns c).signal = none →
        WF (Signal.connect sid c s) Ds Dc (updL L sid (c :: L sid)))
    ∧ (∀ sid c, sid ∈ Ds → (∀ j ∈ Ds, c ∉ L j) →
        WF (Connection.create sid c s) Ds (c :: Dc) (updL L sid (c :: L sid)))
    ∧ (∀ sid c fuel, sid ∈ Ds → (L sid).length ≤ fuel →
        WF (Signal.disconnect sid c fuel s) Ds Dc (updL L sid ((L sid).erase c)))
    ∧ (∀ (sid : Nat) (a : A) (fuel : Nat),
        WF (Signal.emit pureDelegate sid a fuel s) Ds Dc L)
    ∧ (∀ sid, WF (Signal.block sid s) Ds Dc L ∧ WF (Signal.unblock sid s) Ds Dc L)
    ∧ (∀ c, WF (Connection.block c s) Ds Dc L ∧ WF (Connection.unblock c s) Ds Dc L)
    ∧ (∀ sid fuel, sid ∈ Ds → (L sid).length ≤ fuel →
        WF (Signal.destruct sid fuel s) Ds Dc (updL L sid []))
    ∧ (∀ c fuel, c ∈ Dc → (∀ j ∈ Ds, (L j).length ≤ fuel) →
        WF (Connection.destruct c fuel s) Ds Dc (fun j => (L j).erase c)) := by
  refine ⟨?_, ?_, ?_, ?_, ?_, ?_, ?_, ?_, ?_, ?_⟩
  · intro c hc sid hsid
    constructor
    · intro h
      exact ((hwf.2 c hc).2 sid h).2
    · intro h
      exact ((hwf.1 sid hsid).2.2 c h).2
  · intro sid1 h1 sid2 h2 c hc1 hc2
    have e1 := ((hwf.1 sid1 h1).2.2 c hc1).2
    have e2 := ((hwf.1 sid2 h2).2.2 c hc2).2
    rw [e1] at e2
    rw [Option.some.injEq] at e2
    exact e2
  · intro sid c hsid hc hnone
    exact WF_connect hwf hsid hc hnone
  · intro sid c hsid hfresh
    exact WF_create hwf hsid hfresh
  · intro sid c fuel hsid hfuel
    exact WF_disconnect hwf hsid hfuel
  · intro sid a fuel
    exact WF_emit hwf sid a fuel
  · intro sid
    exact ⟨WF_signal_block hwf sid, WF_signal_unblock hwf sid⟩
  · intro c
    exact ⟨WF_conn_block hwf c, WF_conn_unblock hwf c⟩
  · intro sid fuel hsid hfuel
    exact WF_destruct hwf hsid hfuel
  · intro c fuel hc hfuel
    exact WF_conn_destruct hwf hc hfuel

/-- C8 witness: the invariant holds in the concrete three-connection state,
and each operation preserves it there. -/
theorem claim_C8_witness :
    WF exState [0] [2, 1, 0] exL
    ∧ ((∀ c ∈ ([2, 1, 0] : List Nat), ∀ sid ∈ ([0] : List Nat),
          ((exState.conns c).signal = some sid ↔ c ∈ exL sid))
      ∧ (∀ sid1 ∈ ([0] : List Nat), ∀ sid2 ∈ ([0] : List Nat), ∀ c : Nat,
          c ∈ exL sid1 → c ∈ exL sid2 → sid1 = sid2)
      ∧ (∀ sid c, sid ∈ ([0] : List Nat) → c ∈ ([2, 1, 0] : List Nat) →
          (exState.conns c).signal = none →
          WF (Signal.connect sid c exState) [0] [2, 1, 0] (updL exL sid (c :: exL sid)))
      ∧ (∀ sid c, sid ∈ ([0] : List Nat) → (∀ j ∈ ([0] : List Nat), c ∉ exL j) →
          WF (Connection.create sid c exState) [0] (c :: [2, 1, 0])
            (updL exL sid (c :: exL sid)))
      ∧ (∀ sid c fuel, sid ∈ ([0] : List Nat) → (exL sid).length ≤ fuel →
          WF (Signal.disconnect sid c fuel exState) [0] [2, 1, 0]
            (updL exL sid ((exL sid).erase c)))
      ∧ (∀ (sid : Nat) (a : Nat) (fuel : Nat),
          WF (Signal.emit pureDelegate sid a fuel exState) [0] [2, 1, 0] exL)
      ∧ (∀ sid, WF (Signal.block sid exState) [0] [2, 1, 0] exL
          ∧ WF (Signal.unblock sid exState) [0] [2, 1, 0] exL)
      ∧ (∀ c, WF (Connection.block c exState) [0] [2, 1, 0] exL
          ∧ WF (Connection.unblock c exState) [0] [2, 1, 0] exL)
      ∧ (∀ sid fuel, sid ∈ ([0] : List Nat) → (exL sid).length ≤ fuel →
          WF (Signal.destruct sid fuel exState) [0] [2, 1, 0] (updL exL sid []))
      ∧ (∀ c fuel, c ∈ ([2, 1, 0] : List Nat) →
          (∀ j ∈ ([0] : List Nat), (exL j).length ≤ fuel) →
          WF (Connection.destruct c fuel exState) [0] [2, 1, 0]
            (fun j => (exL j).erase c))) :=
  ⟨exState_WF, claim_C8_invariants [0] [2, 1, 0] exL exState exState_WF⟩
